import Mathlib

/-!
Verification development for the core of the psychopath spectral path tracer:
BVH construction and traversal (bvh.rs), the batched ray tracer (tracer.rs),
and the render orchestrator / path integrator (renderer.rs).

Machine floats of the source are modelled by exact rationals; fallible
indexing is modelled with Option.  Helper modules of the repository that are
not part of the provided sources (algorithm.rs, bbox.rs, lerp.rs, math.rs,
ray.rs, hilbert.rs, hash.rs, the halton crate) are modelled from the
specification; each such definition carries a doc comment saying so.
-/

namespace Psychopath

/-- Three-component vector of exact rationals, standing in for the f32
3-vectors of the math3d sub-crate. -/
structure Vec3 where
  x : ℚ
  y : ℚ
  z : ℚ
deriving DecidableEq

/-- Component access by axis index 0/1/2, as the source's Index impls. -/
def Vec3.get (v : Vec3) (axis : Nat) : ℚ :=
  match axis with
  | 0 => v.x
  | 1 => v.y
  | _ => v.z

def vmin (a b : Vec3) : Vec3 :=
  ⟨min a.x b.x, min a.y b.y, min a.z b.z⟩

def vmax (a b : Vec3) : Vec3 :=
  ⟨max a.x b.x, max a.y b.y, max a.z b.z⟩

/-- Modelled from the spec: an AABB is a (min, max) pair of 3D points
(bbox.rs is not under src/). -/
structure BBox where
  min : Vec3
  max : Vec3
deriving DecidableEq

/-- Union of two AABBs: component-wise min/max (the source's BitOr impl). -/
def bunion (a b : BBox) : BBox :=
  ⟨vmin a.min b.min, vmax a.max b.max⟩

/-- Modelled from the spec: surface area of an AABB (bbox.rs is not under
src/). -/
def BBox.surface_area (b : BBox) : ℚ :=
  let dx := b.max.x - b.min.x
  let dy := b.max.y - b.min.y
  let dz := b.max.z - b.min.z
  2 * (dx * dy + dy * dz + dz * dx)

/-- Modelled from the source's BBox::new(): the empty box (inverted infinite
bounds in f32).  The rational model represents emptiness as none, so that no
infinities are needed; union with the empty box is the identity, matching
the f32 behaviour. -/
def obunion : Option BBox → BBox → Option BBox
  | none, b => some b
  | some a, b => some (bunion a b)

def qlerp (a b t : ℚ) : ℚ := a + (b - a) * t

def blerp (a b : BBox) (t : ℚ) : BBox :=
  ⟨⟨qlerp a.min.x b.min.x t, qlerp a.min.y b.min.y t, qlerp a.min.z b.min.z t⟩,
   ⟨qlerp a.max.x b.max.x t, qlerp a.max.y b.max.y t, qlerp a.max.z b.max.z t⟩⟩

def bboxDefault : BBox := ⟨⟨0, 0, 0⟩, ⟨0, 0, 0⟩⟩

/-- Modelled from the spec: interpolation of a time-sample bounds sequence
at time t is component-wise linear between the bracketing samples, constant
if the sequence has length 1 (lerp.rs is not under src/).  Out-of-range
times clamp to the end samples. -/
def lerp_slice (bs : List BBox) (t : ℚ) : BBox :=
  match bs with
  | [] => bboxDefault
  | b :: rest =>
    let n := rest.length + 1
    if n = 1 then b
    else
      let s : ℚ := t * ((n : ℚ) - 1)
      let i : Nat := min (n - 2) s.floor.toNat
      let alpha : ℚ := s - (i : ℚ)
      blerp ((b :: rest).getD i bboxDefault) ((b :: rest).getD (i + 1) bboxDefault) alpha

/-- Modelled from the spec: algorithm::partition (algorithm.rs is not under
src/) moves the elements satisfying the predicate to the front of the slice
in place and returns their count.  We model its effect as a stable
filter-partition, which realises the same count and the same front/back
membership. -/
def spartition (p : α → Bool) (xs : List α) : Nat × List α :=
  ((xs.filter p).length, xs.filter p ++ xs.filter (fun a => !(p a)))

/-- Modelled from the spec: merge_slices_append merges two bounds sequences
element-wise (algorithm.rs is not under src/; per the spec the two child
sequences always have the same length, where zipWith is exact). -/
def merge_slices (f : BBox → BBox → BBox) (a b : List BBox) : List BBox :=
  List.zipWith f a b

/-- Modelled from the spec: the split-policy test compares log2(N) with the
depth headroom (math.rs is not under src/).  For natural N the source's
floor-log2 test log2_64(N) < DEPTH_MAX - depth coincides with the spec's
real-log2 test. -/
def log2_64 (n : Nat) : Nat := Nat.log2 n

def BVH_MAX_DEPTH : Nat := 64
def SAH_BIN_COUNT : Nat := 13

inductive BVHNode where
  | internal (bounds_range : Nat × Nat) (second_child_index : Nat) (split_axis : Nat)
  | leaf (bounds_range : Nat × Nat) (object_range : Nat × Nat)
deriving DecidableEq

structure BVH where
  nodes : List BVHNode
  bounds : List BBox
  depth : Nat
  bounds_cache : List BBox
deriving DecidableEq

def BVH.new_empty : BVH := ⟨[], [], 0, []⟩

def BVH.tree_depth (bvh : BVH) : Nat := bvh.depth

/-- Leaf bounds accumulation (bvh.rs acc_bounds): element-wise union of the
time-sample bounds of all objects of the slice.  The source asserts that the
bounds sequences all have one length and unions them index-wise; it is never
invoked on an empty slice. -/
def acc_bounds {T : Type} (bounder : T → List BBox) (objects : List T) : List BBox :=
  match objects with
  | [] => []
  | o :: rest => rest.foldl (fun acc ob => List.zipWith bunion acc (bounder ob)) (bounder o)

/-- Combined object bounds at t = 0.5 (bvh.rs recursive_build, the bounds
block): union of the interpolated bounds of every object, starting from the
empty box. -/
def centroid_bounds {T : Type} (bounder : T → List BBox) (objects : List T) : Option BBox :=
  objects.foldl (fun bb obj => obunion bb (lerp_slice (bounder obj) (1 / 2))) none

/-- SAH candidate split planes: 12 equally spaced planes per axis inside the
combined bounds (bvh.rs recursive_build, sah_divs). -/
def sah_divs (bounds : BBox) : Nat → Nat → ℚ :=
  fun d dv =>
    let extent := bounds.max.get d - bounds.min.get d
    let part := extent * (((dv : ℚ) + 1) / (SAH_BIN_COUNT : ℚ))
    bounds.min.get d + part

structure SahBin where
  left : Option BBox
  right : Option BBox
  nl : Nat
  nr : Nat

/-- SAH bin for one (axis, plane) candidate (bvh.rs recursive_build,
sah_bins): every object's t = 0.5 bounds goes to the left or right side by
comparing its centroid with the plane.  The source builds all 36 bins in one
pass over the objects; per candidate the result is this independent fold. -/
def sah_bin {T : Type} (bounder : T → List BBox) (objects : List T) (d : Nat) (dv : ℚ) :
    SahBin :=
  objects.foldl
    (fun bin obj =>
      let tb := lerp_slice (bounder obj) (1 / 2)
      let c := (tb.min.get d + tb.max.get d) * (1 / 2)
      if c ≤ dv then
        { bin with left := obunion bin.left tb, nl := bin.nl + 1 }
      else
        { bin with right := obunion bin.right tb, nr := bin.nr + 1 })
    ⟨none, none, 0, 0⟩

/-- Cost of one SAH candidate: area(left)*count(left) + area(right)*count(right).
A candidate with an empty side has no finite cost: in the f32 source its
cost is NaN (infinite empty-box area times zero count) and it can never win
the strict less-than comparison; none models that. -/
def bin_cost (bin : SahBin) : Option ℚ :=
  match bin.left, bin.right with
  | some l, some r => some (l.surface_area * bin.nl + r.surface_area * bin.nr)
  | _, _ => none

/-- Selection of the best (axis, plane) candidate (bvh.rs recursive_build):
scan in source order with a strict less-than against the best cost so far,
which starts at infinity; (axis, plane) start at (0, 0.0). -/
def choose_split (cands : List (Nat × ℚ × Option ℚ)) : Nat × ℚ :=
  let r := cands.foldl
    (fun (st : Nat × ℚ × Option ℚ) c =>
      match c.2.2, st.2.2 with
      | some cost, some best => if cost < best then (c.1, c.2.1, some cost) else st
      | some cost, none => (c.1, c.2.1, some cost)
      | none, _ => st)
    (0, (0 : ℚ), (none : Option ℚ))
  (r.1, r.2.1)

/-- Widest axis of the parent bounds (bvh.rs recursive_build, balanced
branch): axes scanned 0,1,2 with a strict greater-than against the largest
extent so far, which starts at negative infinity. -/
def widest_axis (bounds : BBox) : Nat :=
  let e0 := bounds.max.x - bounds.min.x
  let e1 := bounds.max.y - bounds.min.y
  let e2 := bounds.max.z - bounds.min.z
  if e1 > e0 then (if e2 > e1 then 2 else 1)
  else (if e2 > e0 then 2 else 0)

/-- Insertion of an element into a sorted list, for the stable sort below. -/
def ordered_insert (le : α → α → Bool) (a : α) : List α → List α
  | [] => [a]
  | b :: l => if le a b then a :: b :: l else b :: ordered_insert le a l

/-- Modelled from the spec: the balanced split stable-sorts the primitives
by centroid (the quickersort crate is not under src/).  A structural
insertion sort keeps the model executable by kernel reduction. -/
def insertion_sort (le : α → α → Bool) : List α → List α
  | [] => []
  | a :: l => ordered_insert le a (insertion_sort le l)

/-- Centroid of an object's t = 0.5 bounds along one axis, as used by the
SAH partition predicate and the balanced sort comparator. -/
def centroid_on {T : Type} (bounder : T → List BBox) (ax : Nat) (obj : T) : ℚ :=
  let tb := lerp_slice (bounder obj) (1 / 2)
  (tb.min.get ax + tb.max.get ax) * (1 / 2)

/-- Split policy of one internal build step (bvh.rs recursive_build): SAH
splitting with the clamped in-place partition when there is depth headroom,
otherwise the balanced split (stable sort by centroid on the widest axis,
cut at the midpoint).  Returns the reordered slice, the split index and the
split axis. -/
def split_step {T : Type} (bounder : T → List BBox) (depth : Nat) (objects : List T)
    (bounds : BBox) : List T × Nat × Nat :=
  if log2_64 objects.length < BVH_MAX_DEPTH - depth then
    -- SAH splitting, when we have room to play
    let divs := sah_divs bounds
    let cands :=
      (List.range 3).foldr
        (fun d acc =>
          ((List.range (SAH_BIN_COUNT - 1)).map
            (fun i => (d, divs d i, bin_cost (sah_bin bounder objects d (divs d i))))) ++ acc)
        []
    let ax_dv := choose_split cands
    let ax := ax_dv.1
    let dv := ax_dv.2
    let pr := spartition (fun obj => decide (centroid_on bounder ax obj < dv)) objects
    let si0 := pr.1
    let si :=
      if si0 < 1 then 1
      else if objects.length ≤ si0 then objects.length - 1
      else si0
    (pr.2, si, ax)
  else
    -- Balanced splitting, when we don't have room to play.  The
    -- quickersort sort_by is modelled from the spec as a stable sort by
    -- centroid on the chosen axis.
    let ax := widest_axis bounds
    let sorted := insertion_sort
      (fun a b => decide (centroid_on bounder ax a ≤ centroid_on bounder ax b)) objects
    (sorted, objects.length / 2, ax)

/-- Recursive top-down BVH build (bvh.rs recursive_build), in state-passing
form: takes the build state (node array, bounds arena, depth, cache) and
returns the new state, the reordered object slice, the index of the root of
the built subtree and its range into the bounds arena.  The source recurses
on strictly smaller slices, so the explicit fuel never runs out when it
starts at |objects| + 1 with objects_per_leaf ≥ 1 (with objects_per_leaf =
0 the source recurses forever on a one-object slice; the fuel returns the
current state there instead). -/
def recursive_build {T : Type} (bounder : T → List BBox) (objects_per_leaf : Nat) :
    Nat → Nat → Nat → List T → BVH → BVH × List T × Nat × Nat × Nat
  | 0, _, _, objects, st => (st, objects, 0, 0, 0)
  | fuel + 1, offset, depth, objects, st =>
    if objects.length = 0 then
      (st, objects, 0, 0, 0)
    else if objects.length ≤ objects_per_leaf then
      -- Leaf node
      let me := st.nodes.length
      let cache := acc_bounds bounder objects
      let bi := st.bounds.length
      let st' : BVH :=
        { nodes := st.nodes ++ [BVHNode.leaf (bi, bi + cache.length) (offset, offset + objects.length)],
          bounds := st.bounds ++ cache,
          depth := if st.depth < depth then depth else st.depth,
          bounds_cache := cache }
      (st', objects, me, bi, bi + cache.length)
    else
      -- Not a leaf node: push a placeholder, split, recurse, then fix up.
      let me := st.nodes.length
      let st0 : BVH := { st with nodes := st.nodes ++ [BVHNode.internal (0, 0) 0 0] }
      let bounds :=
        match centroid_bounds bounder objects with
        | some b => b
        | none => bboxDefault   -- unreachable: objects is non-empty here
      let sp := split_step bounder depth objects bounds
      let objects1 := sp.1
      let split_index := sp.2.1
      let split_axis := sp.2.2
      match recursive_build bounder objects_per_leaf fuel offset (depth + 1)
          (objects1.take split_index) st0 with
      | (st1, left1, _, c1lo, c1hi) =>
        match recursive_build bounder objects_per_leaf fuel (offset + split_index) (depth + 1)
            (objects1.drop split_index) st1 with
        | (st2, right1, c2i, c2lo, c2hi) =>
          let bi := st2.bounds.length
          let merged := merge_slices bunion
            ((st2.bounds.drop c1lo).take (c1hi - c1lo))
            ((st2.bounds.drop c2lo).take (c2hi - c2lo))
          let st3 : BVH :=
            { st2 with
              bounds := st2.bounds ++ merged,
              nodes := st2.nodes.set me (BVHNode.internal (bi, bi + merged.length) c2i split_axis) }
          (st3, left1 ++ right1, me, bi, bi + merged.length)

/-- BVH::from_objects: build from a primitive slice, an objects-per-leaf
threshold and a bounds accessor, then clear the construction cache. -/
def from_objects {T : Type} (objects : List T) (objects_per_leaf : Nat)
    (bounder : T → List BBox) : BVH :=
  let r := recursive_build bounder objects_per_leaf (objects.length + 1) 0 0 objects BVH.new_empty
  { r.1 with bounds_cache := [] }

/-- Boundable impl for BVH (bvh.rs): the bounds slice of nodes[0].  The
source indexes nodes[0] unconditionally; the Option result models the panic
on an empty node array. -/
def BVH.root_bounds (bvh : BVH) : Option (List BBox) :=
  match bvh.nodes.head? with
  | none => none
  | some (BVHNode.internal br _ _) => some ((bvh.bounds.drop br.1).take (br.2 - br.1))
  | some (BVHNode.leaf br _) => some ((bvh.bounds.drop br.1).take (br.2 - br.1))

/-- Modelled from the spec: an accel-ray is a compact shadow-copy of a world
ray with an integer id linking back to it — origin, direction, precomputed
inverse direction, time, max_t (none models +∞), a shadow flag and a done
flag (ray.rs is not under src/). -/
structure AccelRay where
  id : Nat
  orig : Vec3
  dir : Vec3
  dir_inv : Vec3
  time : ℚ
  max_t : Option ℚ
  is_shadow : Bool
  done : Bool
deriving DecidableEq

def AccelRay.is_done (r : AccelRay) : Bool := r.done

/-- Modelled from the spec: the ray–slab test returns whether the ray enters
the box within its current [0, max_t] interval (bbox.rs is not under
src/). -/
def intersect_accel_ray (b : BBox) (r : AccelRay) : Bool :=
  let tx1 := (b.min.x - r.orig.x) * r.dir_inv.x
  let tx2 := (b.max.x - r.orig.x) * r.dir_inv.x
  let ty1 := (b.min.y - r.orig.y) * r.dir_inv.y
  let ty2 := (b.max.y - r.orig.y) * r.dir_inv.y
  let tz1 := (b.min.z - r.orig.z) * r.dir_inv.z
  let tz2 := (b.max.z - r.orig.z) * r.dir_inv.z
  let tmin := max (max (min tx1 tx2) (min ty1 ty2)) (min tz1 tz2)
  let tmax := min (min (max tx1 tx2) (max ty1 ty2)) (max tz1 tz2)
  decide (tmin ≤ tmax) && decide (0 ≤ tmax) &&
    (match r.max_t with
     | none => true
     | some m => decide (tmin ≤ m))

/-- Predicate a traversal step uses to keep a ray live at a node: not yet
done, and the node bounds interpolated to the ray's time pass the slab test
(bvh.rs traverse, the two partition closures). -/
def traverse_pred (bnds : List BBox) (br : Nat × Nat) (r : AccelRay) : Bool :=
  !r.is_done && intersect_accel_ray (lerp_slice ((bnds.drop br.1).take (br.2 - br.1)) r.time) r

/-- Main traversal loop of BVH::traverse (bvh.rs), in state-passing form.
The node/count stacks become a list of pairs (head is the stack top); the
in-place mutation of the ray buffer becomes rebuilding prefix ++ rest; the
obj_ray_test callback threads an explicit state σ (the caller's
intersection buffer and transform stack).  The source's loop terminates on
every tree-shaped node array; the fuel keeps the model total even on
adversarial cyclic node arrays, and all theorems hold for every fuel. -/
def traverse_loop {T σ : Type} (nodes : List BVHNode) (bnds : List BBox) (objects : List T)
    (test : T → List AccelRay → σ → List AccelRay × σ) :
    Nat → List AccelRay → List (Nat × Nat) → σ → List AccelRay × σ
  | 0, rays, _, s => (rays, s)
  | fuel + 1, rays, stack, s =>
    match stack with
    | [] => (rays, s)
    | (ni, cnt) :: rest =>
      match nodes.get? ni with
      | none => (rays, s)   -- the source would panic on an out-of-range node index
      | some (BVHNode.internal br sci ax) =>
        let pr := spartition (traverse_pred bnds br) (rays.take cnt)
        let part := pr.1
        let rays1 := pr.2 ++ rays.drop cnt
        if 0 < part then
          let pos :=
            match rays1.head? with
            | some r0 => decide (0 ≤ r0.dir_inv.get ax)   -- rays[0].dir_inv[axis].is_sign_positive()
            | none => false                               -- unreachable: part > 0
          let stack1 :=
            if pos then (ni + 1, part) :: (sci, part) :: rest
            else (sci, part) :: (ni + 1, part) :: rest
          traverse_loop nodes bnds objects test fuel rays1 stack1 s
        else
          traverse_loop nodes bnds objects test fuel rays1 rest s
      | some (BVHNode.leaf br orange) =>
        let pr := spartition (traverse_pred bnds br) (rays.take cnt)
        let part := pr.1
        let rays1 := pr.2 ++ rays.drop cnt
        if 0 < part then
          let objs := (objects.drop orange.1).take (orange.2 - orange.1)
          let out := objs.foldl
            (fun (acc : List AccelRay × σ) ob =>
              let r := test ob (acc.1.take part) acc.2
              (r.1 ++ acc.1.drop part, r.2))
            (rays1, s)
          traverse_loop nodes bnds objects test fuel out.1 rest out.2
        else
          traverse_loop nodes bnds objects test fuel rays1 rest s

/-- BVH::traverse: early return on an empty node array, otherwise run the
stack loop seeded with (node 0, all rays). -/
def BVH.traverse {T σ : Type} (bvh : BVH) (fuel : Nat) (rays : List AccelRay)
    (objects : List T) (test : T → List AccelRay → σ → List AccelRay × σ) (s : σ) :
    List AccelRay × σ :=
  if bvh.nodes.length = 0 then (rays, s)
  else traverse_loop bvh.nodes bvh.bounds objects test fuel rays [(0, rays.length)] s

/-! Renderer-side model (renderer.rs, float4 sub-crate, and the external
interfaces of §6 of the spec). -/

/-- Four-lane float vector (float4 sub-crate, scalar fallback path), over
exact rationals: componentwise arithmetic and horizontal max via the
source's comparison chains. -/
structure Float4 where
  v0 : ℚ
  v1 : ℚ
  v2 : ℚ
  v3 : ℚ
deriving DecidableEq

def Float4.splat (n : ℚ) : Float4 := ⟨n, n, n, n⟩

def Float4.add (x y : Float4) : Float4 := ⟨x.v0 + y.v0, x.v1 + y.v1, x.v2 + y.v2, x.v3 + y.v3⟩

def Float4.mul (x y : Float4) : Float4 := ⟨x.v0 * y.v0, x.v1 * y.v1, x.v2 * y.v2, x.v3 * y.v3⟩

def Float4.muls (x : Float4) (n : ℚ) : Float4 := ⟨x.v0 * n, x.v1 * n, x.v2 * n, x.v3 * n⟩

def Float4.divs (x : Float4) (n : ℚ) : Float4 := ⟨x.v0 / n, x.v1 / n, x.v2 / n, x.v3 / n⟩

/-- Horizontal max of the four lanes (float4 h_max). -/
def Float4.h_max (x : Float4) : ℚ :=
  let n1 := if x.v0 > x.v1 then x.v0 else x.v1
  let n2 := if x.v2 > x.v3 then x.v2 else x.v3
  if n1 > n2 then n1 else n2

def vsub (a b : Vec3) : Vec3 := ⟨a.x - b.x, a.y - b.y, a.z - b.z⟩

def vneg (a : Vec3) : Vec3 := ⟨-a.x, -a.y, -a.z⟩

/-- Normalisation v / v.length() (math3d vector.rs); the f32 square root is
irrational, so the model takes a square-root oracle. -/
def Vec3.normalized (sqrtQ : ℚ → ℚ) (v : Vec3) : Vec3 :=
  let l := sqrtQ (v.x * v.x + v.y * v.y + v.z * v.z)
  ⟨v.x / l, v.y / l, v.z / l⟩

/-- Modelled from the spec: a world ray — origin, direction, time,
wavelength, max_t (none models the initial +∞) and the shadow flag
(ray.rs is not under src/). -/
structure Ray where
  orig : Vec3
  dir : Vec3
  time : ℚ
  wavelength : ℚ
  max_t : Option ℚ
  is_shadow : Bool
deriving DecidableEq

/-- Modelled from the spec: Ray::new with max_t initially +∞. -/
def Ray.new (orig dir : Vec3) (time wavelength : ℚ) (is_shadow : Bool) : Ray :=
  ⟨orig, dir, time, wavelength, none, is_shadow⟩

/-- Modelled from the spec (§6 closure contract; the shading module is not
under src/): a non-emissive surface closure exposes evaluate, sample and
sample_pdf; spectral values are the four-lane .e payloads. -/
structure SurfaceClosureFns where
  evaluate : Vec3 → Vec3 → Vec3 → Vec3 → Float4
  sample : Vec3 → Vec3 → Vec3 → ℚ × ℚ → Vec3 × Float4 × ℚ
  sample_pdf : Vec3 → Vec3 → Vec3 → Vec3 → ℚ

/-- Modelled from the spec: the closure tagged union — an emission closure
with its emitted color, or a reflective closure. -/
inductive SurfaceClosureUnion where
  | emit (color : Float4)
  | material (m : SurfaceClosureFns)

/-- Modelled from the spec: the intersection data fields the integrator
reads (surface module is not under src/). -/
structure IntersectionData where
  incoming : Vec3
  pos : Vec3
  pos_err : ℚ
  nor : Vec3
  nor_g : Vec3
  sample_pdf : ℚ

/-- Surface intersection result: Miss, or Hit with data and closure. -/
inductive SurfaceIntersection where
  | Miss
  | Hit (intersection_data : IntersectionData) (closure : SurfaceClosureUnion)

/-- Modelled from the spec: result of scene.sample_lights (§6). -/
inductive SceneLightSample where
  | NoneS
  | Distant (direction : Vec3) (color : Float4) (pdf : ℚ) (sel_pdf : ℚ)
  | SurfaceS (sample_point : Vec3) (normal : Vec3) (point_err : ℚ)
      (color : Float4) (pdf : ℚ) (sel_pdf : ℚ)

def SceneLightSample.is_none : SceneLightSample → Bool
  | SceneLightSample.NoneS => true
  | _ => false

def SceneLightSample.pdf : SceneLightSample → ℚ
  | SceneLightSample.NoneS => 0
  | SceneLightSample.Distant _ _ p _ => p
  | SceneLightSample.SurfaceS _ _ _ _ p _ => p

def SceneLightSample.selection_pdf : SceneLightSample → ℚ
  | SceneLightSample.NoneS => 0
  | SceneLightSample.Distant _ _ _ s => s
  | SceneLightSample.SurfaceS _ _ _ _ _ s => s

def SceneLightSample.color : SceneLightSample → Float4
  | SceneLightSample.NoneS => Float4.splat 0
  | SceneLightSample.Distant _ c _ _ => c
  | SceneLightSample.SurfaceS _ _ _ c _ _ => c

/-- Modelled from the spec: the external collaborators the integrator calls
— world background, light sampling, the robust ray-origin routine, the
camera, and a square-root oracle for f32 sqrt (scene/camera/fp_utils are
not under src/). -/
structure SceneModel where
  background_color : ℚ → Float4
  sample_lights : ℚ → ℚ × ℚ × ℚ → ℚ → ℚ → SurfaceIntersection → SceneLightSample
  robust_ray_origin : Vec3 → ℚ → Vec3 → Vec3 → Vec3
  generate_ray : ℚ → ℚ → ℚ → ℚ → ℚ → ℚ → Ray
  sqrtQ : ℚ → ℚ

/-- Modelled from the spec: power heuristic with beta = 2 (mis.rs is not
under src/): a^2 / (a^2 + b^2). -/
def power_heuristic (a b : ℚ) : ℚ := (a * a) / (a * a + b * b)

/-- Modelled from the spec: the low-discrepancy and hashing externals of
get_sample and render_job (the halton crate and hash.rs are not under
src/). -/
structure Samplers where
  halton_sample : Nat → Nat → ℚ
  max_dimension : Nat
  hash_u32 : Nat → Nat → Nat
  hash_u32_to_f32 : Nat → Nat → ℚ
  map_wavelength : ℚ → ℚ
  fast_logit : ℚ → ℚ → ℚ

/-- get_sample (renderer.rs): LDS samples below the maximum Halton
dimension, hashed pseudo-random values at or above it. -/
def get_sample (S : Samplers) (dimension i : Nat) : ℚ :=
  if dimension < S.max_dimension then S.halton_sample dimension i
  else S.hash_u32_to_f32 dimension i

inductive LightPathEvent where
  | CameraRay
  | BounceRay
  | ShadowRay
deriving DecidableEq

/-- LightPath state (renderer.rs): the per-sample path-integrator state
machine record; dim_offset is the Cell in plain form. -/
structure LightPath where
  event : LightPathEvent
  bounce_count : Nat
  pixel_co : Nat × Nat
  lds_offset : Nat
  dim_offset : Nat
  time : ℚ
  wavelength : ℚ
  next_bounce_ray : Option Ray
  next_attenuation_fac : Float4
  closure_sample_pdf : ℚ
  light_attenuation : Float4
  pending_color_addition : Float4
  color : Float4
deriving DecidableEq

/-- LightPath::new (renderer.rs): the fresh CameraRay state and the camera
ray for the sample. -/
def LightPath.new (scene : SceneModel) (pixel_co : Nat × Nat)
    (image_plane_co : ℚ × ℚ) (lens_uv : ℚ × ℚ) (time wavelength : ℚ)
    (lds_offset : Nat) : LightPath × Ray :=
  ({ event := LightPathEvent.CameraRay,
     bounce_count := 0,
     pixel_co := pixel_co,
     lds_offset := lds_offset,
     dim_offset := 6,
     time := time,
     wavelength := wavelength,
     next_bounce_ray := none,
     next_attenuation_fac := Float4.splat 1,
     closure_sample_pdf := 1,
     light_attenuation := Float4.splat 1,
     pending_color_addition := Float4.splat 0,
     color := Float4.splat 0 },
   scene.generate_ray image_plane_co.1 image_plane_co.2 time wavelength lens_uv.1 lens_uv.2)

/-- next_lds_samp (renderer.rs): draw the next LDS dimension and advance
the dimension counter. -/
def next_lds_samp (S : Samplers) (p : LightPath) : ℚ × LightPath :=
  (get_sample S p.dim_offset p.lds_offset, { p with dim_offset := p.dim_offset + 1 })

/-- Light-ray preparation inside LightPath::next (renderer.rs, the
found_light block): sample one light and, when every pdf is positive and
the BSDF attenuation is non-zero, produce the pending color addition and
the shadow ray.  The source stores pending_color_addition and overwrites
the ray at this point; nothing reads them before the final book-keeping, so
returning them is equivalent. -/
def prepare_light_ray (scene : SceneModel) (mat : SurfaceClosureFns)
    (idata : IntersectionData) (ray : Ray) (p : LightPath)
    (light_n : ℚ) (light_uvw : ℚ × ℚ × ℚ) (isect : SurfaceIntersection) :
    Option (Float4 × Ray) :=
  let light_info := scene.sample_lights light_n light_uvw p.wavelength p.time isect
  if light_info.is_none || !(decide (0 < light_info.pdf)) ||
      !(decide (0 < light_info.selection_pdf)) then
    none
  else
    let light_pdf := light_info.pdf
    let light_sel_pdf := light_info.selection_pdf
    let acs :=
      match light_info with
      | SceneLightSample.NoneS => none   -- unreachable!() in the source
      | SceneLightSample.Distant direction _ _ _ =>
        let attenuation := mat.evaluate ray.dir direction idata.nor idata.nor_g
        let closure_pdf := mat.sample_pdf ray.dir direction idata.nor idata.nor_g
        let offset_pos := scene.robust_ray_origin idata.pos idata.pos_err
          (Vec3.normalized scene.sqrtQ idata.nor_g) direction
        let shadow_ray0 := Ray.new offset_pos direction p.time p.wavelength true
        let shadow_ray := { shadow_ray0 with max_t := none }   -- max_t = INFINITY
        some (attenuation, closure_pdf, shadow_ray)
      | SceneLightSample.SurfaceS spoint snorm serr _ _ _ =>
        let dir := vsub spoint idata.pos
        let attenuation := mat.evaluate ray.dir dir idata.nor idata.nor_g
        let closure_pdf := mat.sample_pdf ray.dir dir idata.nor idata.nor_g
        let offset_pos := scene.robust_ray_origin idata.pos idata.pos_err
          (Vec3.normalized scene.sqrtQ idata.nor_g) dir
        let offset_end := scene.robust_ray_origin spoint serr
          (Vec3.normalized scene.sqrtQ snorm) (vneg dir)
        let shadow_ray := Ray.new offset_pos (vsub offset_end offset_pos) p.time p.wavelength true
        some (attenuation, closure_pdf, shadow_ray)
    match acs with
    | none => none
    | some (attenuation, closure_pdf, shadow_ray) =>
      if attenuation.h_max ≤ 0 then none
      else
        let light_mis_pdf := power_heuristic light_pdf closure_pdf
        some ((light_info.color.mul attenuation |>.mul p.light_attenuation).divs
            (light_mis_pdf * light_sel_pdf),
          shadow_ray)

/-- Bounce-ray preparation inside LightPath::next (renderer.rs, the
do_bounce block): below the bounce limit, draw two dimensions and sample
the BSDF; on a usable sample queue the next bounce ray; at the limit clear
the queued ray. -/
def prepare_bounce (S : Samplers) (scene : SceneModel) (mat : SurfaceClosureFns)
    (idata : IntersectionData) (p : LightPath) : LightPath × Bool :=
  if p.bounce_count < 2 then
    let p := { p with bounce_count := p.bounce_count + 1 }
    let up := next_lds_samp S p
    let vp := next_lds_samp S up.2
    let p := vp.2
    match mat.sample idata.incoming idata.nor idata.nor_g (up.1, vp.1) with
    | (dir, filter, pdf) =>
      if 0 < pdf ∧ 0 < filter.h_max then
        let offset_pos := scene.robust_ray_origin idata.pos idata.pos_err
          (Vec3.normalized scene.sqrtQ idata.nor_g) dir
        ({ p with next_attenuation_fac := filter,
                  closure_sample_pdf := pdf,
                  next_bounce_ray :=
                    some (Ray.new offset_pos dir p.time p.wavelength false) }, true)
      else
        (p, false)
  else
    ({ p with next_bounce_ray := none }, false)

/-- Book-keeping for the next event at the end of the Camera/Bounce arm of
LightPath::next (renderer.rs): a prepared light ray wins and transitions to
ShadowRay; otherwise a prepared bounce transitions to BounceRay and folds
the queued attenuation in; otherwise the path terminates. -/
def next_bookkeep (p : LightPath) (fl : Option (Float4 × Ray)) (do_bounce : Bool)
    (ray : Ray) : LightPath × Ray × Bool :=
  match fl with
  | some (pending, shadow_ray) =>
    ({ p with pending_color_addition := pending, event := LightPathEvent.ShadowRay },
      shadow_ray, true)
  | none =>
    if do_bounce then
      match p.next_bounce_ray with
      | some nbr =>
        ({ p with event := LightPathEvent.BounceRay,
                  light_attenuation := p.light_attenuation.mul p.next_attenuation_fac },
          nbr, true)
      | none => (p, ray, false)   -- unreachable: do_bounce implies a queued ray
    else
      (p, ray, false)

/-- LightPath::next (renderer.rs): one step of the Camera → Bounce ↔ Shadow
state machine.  Returns the updated path, the ray to trace next (the &mut
ray out-parameter) and whether the path continues. -/
def LightPath.next (S : Samplers) (scene : SceneModel)
    (isect : SurfaceIntersection) (ray : Ray) (p : LightPath) :
    LightPath × Ray × Bool :=
  match p.event with
  | LightPathEvent.CameraRay | LightPathEvent.BounceRay =>
    match isect with
    | SurfaceIntersection.Hit idata closure =>
      match closure with
      | SurfaceClosureUnion.emit ecolor =>
        -- emission closure: collect the light, terminate the path
        match p.event with
        | LightPathEvent.CameraRay =>
          ({ p with color := p.color.add ecolor }, ray, false)
        | _ =>
          let mis_pdf := power_heuristic p.closure_sample_pdf idata.sample_pdf
          ({ p with color := p.color.add ((ecolor.mul p.light_attenuation).divs mis_pdf) },
            ray, false)
      | SurfaceClosureUnion.material mat =>
        -- roll the previous closure pdf into the attenuation
        let p := { p with light_attenuation := p.light_attenuation.divs p.closure_sample_pdf }
        let np := next_lds_samp S p
        let up := next_lds_samp S np.2
        let vp := next_lds_samp S up.2
        let wp := next_lds_samp S vp.2
        let p := wp.2
        let fl := prepare_light_ray scene mat idata ray p np.1 (up.1, vp.1, wp.1) isect
        let pb := prepare_bounce S scene mat idata p
        next_bookkeep pb.1 fl pb.2 ray
    | SurfaceIntersection.Miss =>
      -- didn't hit anything: background color, terminate
      let bg := ((scene.background_color p.wavelength).mul p.light_attenuation).divs
        p.closure_sample_pdf
      ({ p with color := p.color.add bg }, ray, false)
  | LightPathEvent.ShadowRay =>
    -- if the light was not in shadow, commit its pending contribution
    let p :=
      match isect with
      | SurfaceIntersection.Miss => { p with color := p.color.add p.pending_color_addition }
      | _ => p
    match p.next_bounce_ray with
    | some nbr =>
      ({ p with light_attenuation := p.light_attenuation.mul p.next_attenuation_fac,
                event := LightPathEvent.BounceRay }, nbr, true)
    | none => (p, ray, false)

/-- Termination measure of a light path: an upper bound on the number of
further rays it can emit. -/
def LightPath.measure (p : LightPath) : Nat :=
  match p.event with
  | LightPathEvent.ShadowRay =>
    if p.next_bounce_ray.isSome then 2 * (2 - p.bounce_count) + 2 else 0
  | _ => 2 * (2 - p.bounce_count) + 1

/-- Iterated LightPath::next over a list of per-step intersections,
threading the emitted ray as render_job's loop does; some means every step
returned true. -/
def run_path (S : Samplers) (scene : SceneModel) :
    LightPath → Ray → List SurfaceIntersection → Option LightPath
  | p, _, [] => some p
  | p, ray, isect :: rest =>
    match LightPath.next S scene isect ray p with
    | (p', r', true) => run_path S scene p' r' rest
    | (_, _, false) => none

/-- Per-pixel lds_offset derivation of render_job (renderer.rs): the base
offset is hash_u32((x << 16) xor y, seed), truncated to u32. -/
def pixel_offset (S : Samplers) (seed x y : Nat) : Nat :=
  S.hash_u32 (((x <<< 16) ^^^ y) % 2 ^ 32) seed

/-- Construction of the light path and camera ray for one (pixel, sample)
pair in render_job (renderer.rs lines 243-271): filter jitter from
dimensions 4-5, lens uv from 0-1, time from 2, wavelength from 3, and
lds_offset = pixel offset + sample index. -/
def make_pixel_path (S : Samplers) (scene : SceneModel) (res_w res_h : Nat)
    (seed x y si : Nat) : LightPath × Ray :=
  let offset := pixel_offset S seed x y
  let cmpx : ℚ := 1 / (res_w : ℚ)
  let cmpy : ℚ := 1 / (res_h : ℚ)
  let min_x : ℚ := -1
  let max_x : ℚ := 1
  let min_y : ℚ := -((res_h : ℚ) / (res_w : ℚ))
  let max_y : ℚ := (res_h : ℚ) / (res_w : ℚ)
  let x_extent := max_x - min_x
  let y_extent := max_y - min_y
  let filter_x := S.fast_logit (get_sample S 4 (offset + si)) (3 / 2) + 1 / 2
  let filter_y := S.fast_logit (get_sample S 5 (offset + si)) (3 / 2) + 1 / 2
  let samp_x := (filter_x + (x : ℚ)) * cmpx
  let samp_y := (filter_y + (y : ℚ)) * cmpy
  LightPath.new scene (x, y)
    ((samp_x - 1 / 2) * x_extent, (1 / 2 - samp_y) * y_extent)
    (get_sample S 0 (offset + si), get_sample S 1 (offset + si))
    (get_sample S 2 (offset + si))
    (S.map_wavelength (get_sample S 3 (offset + si)))
    (offset + si)

/-- Image-plane sample draws of a path: the k-th draw value after k
previous draws (drawing advances dim_offset, as the Cell does). -/
def draw_n (S : Samplers) : LightPath → Nat → ℚ
  | p, 0 => (next_lds_samp S p).1
  | p, k + 1 => draw_n S (next_lds_samp S p).2 k

/-! Bucket-queue model (renderer.rs Renderer::render) with a spec-modelled
Hilbert curve. -/

/-- Modelled from the spec: upper_power_of_two (math.rs is not under src/)
is the smallest power of two that is at least its argument. -/
def upper_power_of_two (n : Nat) : Nat := 2 ^ Nat.clog 2 n

/-- Modelled from the spec: recursive Hilbert-curve decode on the
2^k-square — quadrant order lower-left (transposed), upper-left,
upper-right, lower-right (anti-transposed), as the classic d2xy routine of
hilbert.rs (not under src/). -/
def hd2xy : Nat → Nat → Nat × Nat
  | 0, _ => (0, 0)
  | k + 1, d =>
    let q := d / 4 ^ k
    let r := d % 4 ^ k
    let p := hd2xy k r
    match q with
    | 0 => (p.2, p.1)
    | 1 => (p.1, p.2 + 2 ^ k)
    | 2 => (p.1 + 2 ^ k, p.2 + 2 ^ k)
    | _ => (2 ^ k - 1 - p.2 + 2 ^ k, 2 ^ k - 1 - p.1)

/-- Inverse Hilbert encode, used to prove the decode bijective. -/
def hxy2d : Nat → Nat × Nat → Nat
  | 0, _ => 0
  | k + 1, (x, y) =>
    if x < 2 ^ k then
      if y < 2 ^ k then hxy2d k (y, x)
      else 4 ^ k + hxy2d k (x, y - 2 ^ k)
    else
      if y < 2 ^ k then 3 * 4 ^ k + hxy2d k (2 ^ k - 1 - y, 2 ^ (k + 1) - 1 - x)
      else 2 * 4 ^ k + hxy2d k (x - 2 ^ k, y - 2 ^ k)

/-- Axis swap applied n times (the orientation flip between Hilbert curve
orders). -/
def swapN (n : Nat) (p : Nat × Nat) : Nat × Nat :=
  if n % 2 = 0 then p else (p.2, p.1)

/-- hilbert::d2xy of the source operates on the fixed order-16 curve. -/
def d2xy (d : Nat) : Nat × Nat := hd2xy 16 d

/-- BucketJob (renderer.rs). -/
structure BucketJob where
  x : Nat
  y : Nat
  w : Nat
  h : Nat
deriving DecidableEq

/-- Rendered-region computation of Renderer::render (renderer.rs lines
100-108): crop corners are clamped to the image and the region is the
inclusive rectangle (the source would underflow if x2 < x1 after
clamping; theorems assume a well-ordered crop). -/
def render_region (img_w img_h : Nat) (crop : Option (Nat × Nat × Nat × Nat)) :
    Nat × Nat × Nat × Nat :=
  match crop with
  | some (x1, y1, x2, y2) =>
    let x1 := min x1 (img_w - 1)
    let y1 := min y1 (img_h - 1)
    let x2 := min x2 (img_w - 1)
    let y2 := min y2 (img_h - 1)
    (x2 - x1 + 1, y2 - y1 + 1, x1, y1)
  | none => (img_w, img_h, 0, 0)

/-- Bucket size selection (renderer.rs lines 138-147): the f64 square root
of the pixels-per-bucket target, floored, with floor 1.  Exact rationals
replace f64; floor of the real square root of a rational equals Nat.sqrt
of its floor. -/
def bucket_dims (max_samples_per_bucket spp : Nat) : Nat × Nat :=
  let target_pixels_per_bucket : ℚ := (max_samples_per_bucket : ℚ) / (spp : ℚ)
  let dim := if target_pixels_per_bucket < 1 then 1
             else Nat.sqrt target_pixels_per_bucket.floor.toNat
  (dim, dim)

/-- Bucket job enqueue loop of Renderer::render (renderer.rs lines
149-180), including the u32 arithmetic of the source: bucket counts and
bucket_n = pow2 * pow2 wrap modulo 2^32. -/
def populate_jobs (width height start_x start_y bucket_w bucket_h : Nat) : List BucketJob :=
  let bucket_count_x := (width / bucket_w + 1) % 2 ^ 32
  let bucket_count_y := (height / bucket_h + 1) % 2 ^ 32
  let larger := max bucket_count_x bucket_count_y
  let pow2 := upper_power_of_two larger
  let bucket_n := (pow2 * pow2) % 2 ^ 32
  (List.range bucket_n).filterMap
    (fun hilbert_d =>
      let bxy := d2xy hilbert_d
      let x := bxy.1 * bucket_w
      let y := bxy.2 * bucket_h
      let w := if x ≤ width then min bucket_w (width - x) else bucket_w
      let h := if y ≤ height then min bucket_h (height - y) else bucket_h
      if x < width ∧ y < height ∧ 0 < w ∧ 0 < h then
        some ⟨start_x + x, start_y + y, w, h⟩
      else
        none)

/-- Whole bucket pipeline of Renderer::render: crop, bucket dims, enqueue. -/
def render_jobs (img_w img_h : Nat) (crop : Option (Nat × Nat × Nat × Nat))
    (max_samples_per_bucket spp : Nat) : List BucketJob :=
  let r := render_region img_w img_h crop
  let bd := bucket_dims max_samples_per_bucket spp
  populate_jobs r.1 r.2.1 r.2.2.1 r.2.2.2 bd.1 bd.2

/-- Pixel membership in a bucket job's rectangle. -/
def job_contains (j : BucketJob) (px py : Nat) : Bool :=
  decide (j.x ≤ px ∧ px < j.x + j.w ∧ j.y ≤ py ∧ py < j.y + j.h)

/-- Degenerate point box at the origin, used as a concrete primitive bound. -/
def unitPoint : BBox := ⟨⟨0, 0, 0⟩, ⟨0, 0, 0⟩⟩

/-- Concrete box used by witnesses. -/
def demoBoxA : BBox := ⟨⟨0, 0, 0⟩, ⟨1, 1, 1⟩⟩

/-- Concrete box used by witnesses. -/
def demoBoxB : BBox := ⟨⟨2, -1, 0⟩, ⟨3, 4, 2⟩⟩

/-- Concrete sampler externals for witnesses. -/
def demoSamplers : Samplers :=
  ⟨fun _ _ => 1 / 2, 16, fun a b => a + b, fun _ _ => 1 / 2, fun q => q, fun q _ => q⟩

/-- Concrete surface closure for witnesses: unit white diffuse-like data. -/
def demoMat : SurfaceClosureFns :=
  ⟨fun _ _ _ _ => Float4.splat 1,
   fun _ _ _ _ => (⟨0, 0, 1⟩, Float4.splat 1, 1),
   fun _ _ _ _ => 1⟩

/-- Concrete intersection data for witnesses. -/
def demoIData : IntersectionData := ⟨⟨0, 0, -1⟩, ⟨0, 0, 0⟩, 0, ⟨0, 0, 1⟩, ⟨0, 0, 1⟩, 1⟩

/-- Concrete scene externals for witnesses: one distant light with unit
pdfs, identity-like camera and oracles. -/
def demoScene : SceneModel :=
  ⟨fun _ => Float4.splat 1,
   fun _ _ _ _ _ => SceneLightSample.Distant ⟨0, 0, 1⟩ (Float4.splat 1) 1 1,
   fun pos _ _ _ => pos,
   fun _ _ t w _ _ => Ray.new ⟨0, 0, 0⟩ ⟨0, 0, 1⟩ t w false,
   fun q => q⟩

/-- Concrete hit on the demo material. -/
def demoHitM : SurfaceIntersection :=
  SurfaceIntersection.Hit demoIData (SurfaceClosureUnion.material demoMat)

/-- Concrete world ray for witnesses. -/
def demoRay : Ray := Ray.new ⟨0, 0, 0⟩ ⟨0, 0, 1⟩ 0 500 false

/-- Concrete ShadowRay-state path for the C4 witness. -/
def demoShadowPath : LightPath :=
  { event := LightPathEvent.ShadowRay,
    bounce_count := 1,
    pixel_co := (0, 0),
    lds_offset := 0,
    dim_offset := 10,
    time := 0,
    wavelength := 500,
    next_bounce_ray := some demoRay,
    next_attenuation_fac := Float4.splat (1 / 2),
    closure_sample_pdf := 1,
    light_attenuation := Float4.splat 1,
    pending_color_addition := Float4.splat (1 / 4),
    color := Float4.splat 0 }

/-- Bounds range of a BVH node, of either kind. -/
def nodeBR : BVHNode → Nat × Nat
  | BVHNode.internal br _ _ => br
  | BVHNode.leaf br _ => br

/-- Option-valued restatement of the acc_bounds fold, convenient for
permutation reasoning (none plays the role of the not-yet-started
accumulator). -/
def acc_run {T : Type} (bounder : T → List BBox) (objs : List T) : Option (List BBox) :=
  objs.foldl
    (fun acc ob =>
      match acc with
      | none => some (bounder ob)
      | some a => some (List.zipWith bunion a (bounder ob)))
    none

/-- Union of the i-th time-sample bounds over all primitives of a slice:
the value the spec says each root-bounds sample must equal. -/
def union_at {T : Type} (bounder : T → List BBox) (objs : List T) (i : Nat) : Option BBox :=
  objs.foldl (fun acc o => obunion acc ((bounder o).getD i bboxDefault)) none

/-- Contract of one recursive_build call, used to prove the root-bounds
theorem: the returned objects are a permutation of the input slice, the
returned node index is the next free slot, existing nodes and bounds are
preserved (nodes by index, bounds as a prefix), the returned bounds range
is the final arena segment of length L, the recorded node carries that
range, and the arena segment holds the element-wise union of all the
slice's time-sample bounds. -/
def BuildOk {T : Type} (bounder : T → List BBox) (L : Nat)
    (objects : List T) (st : BVH) (r : BVH × List T × Nat × Nat × Nat) : Prop :=
  r.2.1.Perm objects ∧
  r.2.2.1 = st.nodes.length ∧
  st.nodes.length < r.1.nodes.length ∧
  (∀ j, j < st.nodes.length → r.1.nodes.get? j = st.nodes.get? j) ∧
  (∃ ext, r.1.bounds = st.bounds ++ ext) ∧
  r.1.bounds.length = r.2.2.2.2 ∧
  r.2.2.2.1 + L = r.2.2.2.2 ∧
  (∃ nd, r.1.nodes.get? r.2.2.1 = some nd ∧ nodeBR nd = (r.2.2.2.1, r.2.2.2.2)) ∧
  (r.1.bounds.drop r.2.2.2.1).take L = acc_bounds bounder objects

/-- Direction-sign test used by split_rays_by_direction (tracer.rs):
r.dir_inv.x() >= 0.0. -/
def xpos (r : AccelRay) : Bool := decide (0 ≤ r.dir_inv.x)

def ypos (r : AccelRay) : Bool := decide (0 ≤ r.dir_inv.y)

def zpos (r : AccelRay) : Bool := decide (0 ≤ r.dir_inv.z)

/-- split_rays_by_direction (tracer.rs): three successive in-place
partitions — on the x sign over the whole slice, on the y sign over the two
x blocks, on the z sign over the four xy blocks — yield eight contiguous
sub-slices rs0..rs7.  In list form, each partition of a block splits it
into its take/drop around the returned index. -/
def split_rays_by_direction (rays : List AccelRay) : List (List AccelRay) :=
  let x := spartition xpos rays
  let xp := x.2.take x.1
  let xn := x.2.drop x.1
  let yxp := spartition ypos xp
  let yxn := spartition ypos xn
  let xpyp := yxp.2.take yxp.1
  let xpyn := yxp.2.drop yxp.1
  let xnyp := yxn.2.take yxn.1
  let xnyn := yxn.2.drop yxn.1
  let z0 := spartition zpos xpyp
  let z1 := spartition zpos xpyn
  let z2 := spartition zpos xnyp
  let z3 := spartition zpos xnyn
  [z0.2.take z0.1, z0.2.drop z0.1,
   z1.2.take z1.1, z1.2.drop z1.1,
   z2.2.take z2.1, z2.2.drop z2.1,
   z3.2.take z3.1, z3.2.drop z3.1]

/-! Tracer model (tracer.rs, with the spec-modelled externals of ray.rs,
scene.rs, surface.rs and transform_stack.rs, which are not under src/). -/

def Vec3.dot (a b : Vec3) : ℚ := a.x * b.x + a.y * b.y + a.z * b.z

/-- Modelled from the spec: an affine transform (three linear rows plus a
translation column) over exact rationals (the math3d matrix type is not
under src/). -/
structure Matrix where
  rx : Vec3
  ry : Vec3
  rz : Vec3
  tr : Vec3
deriving DecidableEq

def Matrix.xfpoint (m : Matrix) (p : Vec3) : Vec3 :=
  ⟨m.rx.dot p + m.tr.x, m.ry.dot p + m.tr.y, m.rz.dot p + m.tr.z⟩

def Matrix.xfdir (m : Matrix) (d : Vec3) : Vec3 :=
  ⟨m.rx.dot d, m.ry.dot d, m.rz.dot d⟩

def vlerp (a b : Vec3) (t : ℚ) : Vec3 :=
  ⟨qlerp a.x b.x t, qlerp a.y b.y t, qlerp a.z b.z t⟩

def mlerp (a b : Matrix) (t : ℚ) : Matrix :=
  ⟨vlerp a.rx b.rx t, vlerp a.ry b.ry t, vlerp a.rz b.rz t, vlerp a.tr b.tr t⟩

def midMatrix : Matrix := ⟨⟨1, 0, 0⟩, ⟨0, 1, 0⟩, ⟨0, 0, 1⟩, ⟨0, 0, 0⟩⟩

/-- Modelled from the spec: time-sample interpolation of a transform slice,
as lerp_slice for bounds (lerp.rs is not under src/). -/
def lerp_slice_m (ms : List Matrix) (t : ℚ) : Matrix :=
  match ms with
  | [] => midMatrix
  | m :: rest =>
    let n := rest.length + 1
    if n = 1 then m
    else
      let s : ℚ := t * ((n : ℚ) - 1)
      let i : Nat := min (n - 2) s.floor.toNat
      let alpha : ℚ := s - (i : ℚ)
      mlerp ((m :: rest).getD i midMatrix) ((m :: rest).getD (i + 1) midMatrix) alpha

def Matrix.colx (m : Matrix) : Vec3 := ⟨m.rx.x, m.ry.x, m.rz.x⟩

def Matrix.coly (m : Matrix) : Vec3 := ⟨m.rx.y, m.ry.y, m.rz.y⟩

def Matrix.colz (m : Matrix) : Vec3 := ⟨m.rx.z, m.ry.z, m.rz.z⟩

/-- Affine composition: (a.mul b).apply = a.apply after b.apply. -/
def Matrix.mul (a b : Matrix) : Matrix :=
  ⟨⟨a.rx.dot b.colx, a.rx.dot b.coly, a.rx.dot b.colz⟩,
   ⟨a.ry.dot b.colx, a.ry.dot b.coly, a.ry.dot b.colz⟩,
   ⟨a.rz.dot b.colx, a.rz.dot b.coly, a.rz.dot b.colz⟩,
   a.xfpoint b.tr⟩

/-- Modelled from the spec: TransformStack::push composes the incoming
transform slice with the current top, interpolating both to the longer
sample count (transform_stack.rs is not under src/). -/
def mslice_compose (a b : List Matrix) : List Matrix :=
  match a, b with
  | [], _ => b
  | _, [] => a
  | _, _ =>
    let n := max a.length b.length
    (List.range n).map (fun i =>
      let t : ℚ := if n ≤ 1 then 0 else (i : ℚ) / ((n : ℚ) - 1)
      (lerp_slice_m a t).mul (lerp_slice_m b t))

def xstack_top (st : List (List Matrix)) : List Matrix := st.headD []

def xstack_push (st : List (List Matrix)) (xfs : List Matrix) : List (List Matrix) :=
  mslice_compose (xstack_top st) xfs :: st

def xstack_pop (st : List (List Matrix)) : List (List Matrix) := st.tail

/-- Modelled from the spec: AccelRay::new copies the world ray's fields,
precomputes the inverse direction and starts not done. -/
def AccelRay.new (wr : Ray) (id : Nat) : AccelRay :=
  ⟨id, wr.orig, wr.dir, ⟨1 / wr.dir.x, 1 / wr.dir.y, 1 / wr.dir.z⟩,
   wr.time, wr.max_t, wr.is_shadow, false⟩

/-- Modelled from the spec: re-derive origin/direction from the referenced
world ray through a transform; id, time, max_t and the flags are
untouched. -/
def AccelRay.update_from_xformed_world_ray (r : AccelRay) (wr : Ray) (m : Matrix) :
    AccelRay :=
  let o := m.xfpoint wr.orig
  let d := m.xfdir wr.dir
  { r with orig := o, dir := d, dir_inv := ⟨1 / d.x, 1 / d.y, 1 / d.z⟩ }

/-- Modelled from the spec: restore origin/direction from the world ray
(identity transform). -/
def AccelRay.update_from_world_ray (r : AccelRay) (wr : Ray) : AccelRay :=
  { r with orig := wr.orig, dir := wr.dir,
           dir_inv := ⟨1 / wr.dir.x, 1 / wr.dir.y, 1 / wr.dir.z⟩ }

/-- Modelled from the spec: a surface's geometric hit test, abstracted to a
function from the (possibly transformed) accel ray and the current
transform slice to an optional hit distance plus the intersection record to
store (surface.rs is not under src/; the shader choice of tracer.rs is
folded into the stored record). -/
structure SurfaceRec where
  hit : AccelRay → List Matrix → Option (ℚ × SurfaceIntersection)

/-- Object payload of an assembly (scene.rs): a surface or a surface
light. -/
inductive SObject where
  | surface (srf : SurfaceRec)
  | surfaceLight (srf : SurfaceRec)

def SObject.srf : SObject → SurfaceRec
  | SObject.surface s => s
  | SObject.surfaceLight s => s

inductive InstanceType where
  | object
  | assembly
deriving DecidableEq

/-- Instance record of an assembly (scene.rs as used by tracer.rs). -/
structure Instance where
  instance_type : InstanceType
  data_index : Nat
  surface_shader_index : Option Nat
  transform_indices : Option (Nat × Nat)

/-- Modelled from the spec: an assembly — instance list, transform arena,
objects, nested assemblies and the instance BVH (scene.rs is not under
src/).  Surface shader storage is folded into the objects' hit records. -/
inductive Assembly where
  | mk (instances : List Instance) (xforms : List Matrix)
      (objects : List SObject) (assemblies : List Assembly)
      (object_accel : BVH)

def Assembly.instances : Assembly → List Instance
  | Assembly.mk is _ _ _ _ => is

def Assembly.xforms : Assembly → List Matrix
  | Assembly.mk _ xs _ _ _ => xs

def Assembly.objects : Assembly → List SObject
  | Assembly.mk _ _ obs _ _ => obs

def Assembly.assemblies : Assembly → List Assembly
  | Assembly.mk _ _ _ asms _ => asms

def Assembly.object_accel : Assembly → BVH
  | Assembly.mk _ _ _ _ accel => accel

/-- Tracer state threaded through traversal: the intersection buffer and
the transform stack (TracerInner's isects and xform_stack). -/
structure TraceSt where
  isects : List SurfaceIntersection
  stack : List (List Matrix)

/-- Modelled from the spec: Surface::intersect_rays — for each not-done
accel ray in order, run the hit test; a hit closer than the ray's current
max_t writes the intersection record at index ray.id, shrinks max_t and
sets done for shadow rays (early-out). -/
def surf_intersect_rays (hit : AccelRay → List Matrix → Option (ℚ × SurfaceIntersection))
    (xfs : List Matrix) (rays : List AccelRay) (isects : List SurfaceIntersection) :
    List AccelRay × List SurfaceIntersection :=
  rays.foldl
    (fun (acc : List AccelRay × List SurfaceIntersection) r =>
      if r.is_done then (acc.1 ++ [r], acc.2)
      else
        match hit r xfs with
        | none => (acc.1 ++ [r], acc.2)
        | some (t, isect) =>
          let closer := match r.max_t with
            | none => true
            | some m => decide (t < m)
          if closer then
            (acc.1 ++ [{ r with max_t := some t, done := r.is_shadow }],
             acc.2.set r.id isect)
          else (acc.1 ++ [r], acc.2))
    ([], isects)

/-- trace_object (tracer.rs): both object kinds intersect their surface
(the shader/bogus-shader choice only affects the stored record, which the
abstract hit already carries). -/
def trace_object_m (ob : SObject) (xfs : List Matrix) (rays : List AccelRay)
    (isects : List SurfaceIntersection) : List AccelRay × List SurfaceIntersection :=
  surf_intersect_rays ob.srf.hit xfs rays isects

/-- trace_assembly (tracer.rs) in fuel-indexed state-passing form: traverse
the assembly's instance BVH; per BVH-hit instance push/apply transforms,
split by direction if transformed, dispatch to object intersection or
nested-assembly recursion, then pop and restore rays.  The fuel bounds the
assembly recursion depth (the source recursion is bounded by the scene DAG
depth); all theorems hold for every fuel. -/
def trace_assembly : Nat → Assembly → List Ray → List AccelRay → TraceSt →
    List AccelRay × TraceSt
  | 0, _, _, rays, st => (rays, st)
  | fuel + 1, asm, wrays, rays, st =>
    asm.object_accel.traverse (fuel + 1) rays asm.instances
      (fun inst rs σ =>
        let xformed := inst.transform_indices.isSome
        let σ1 : TraceSt := match inst.transform_indices with
          | some (xstart, xend) =>
            let sl := (asm.xforms.drop xstart).take (xend - xstart)
            { σ with stack := xstack_push σ.stack sl }
          | none => σ
        let rs1 := match inst.transform_indices with
          | some _ => rs.map (fun r =>
              match wrays.get? r.id with
              | some wr => r.update_from_xformed_world_ray wr
                  (lerp_slice_m (xstack_top σ1.stack) r.time)
              | none => r)   -- the source would panic on an out-of-range id
          | none => rs
        let ray_sets := if xformed then split_rays_by_direction rs1 else [rs1]
        let dispatch : List AccelRay → TraceSt → List AccelRay × TraceSt :=
          fun rset σ' =>
            match inst.instance_type with
            | InstanceType.object =>
              match asm.objects.get? inst.data_index with
              | none => (rset, σ')  -- the source would panic
              | some ob =>
                let r := trace_object_m ob (xstack_top σ'.stack) rset σ'.isects
                (r.1, { σ' with isects := r.2 })
            | InstanceType.assembly =>
              match asm.assemblies.get? inst.data_index with
              | none => (rset, σ')  -- the source would panic
              | some child => trace_assembly fuel child wrays rset σ'
        let out := ray_sets.foldl
          (fun (acc : List (List AccelRay) × TraceSt) rset =>
            if rset.isEmpty then (acc.1 ++ [rset], acc.2)
            else
              let r := dispatch rset acc.2
              (acc.1 ++ [r.1], r.2))
          ([], σ1)
        let rs2 := out.1.flatten
        if xformed then
          let σ2 : TraceSt := { out.2 with stack := xstack_pop out.2.stack }
          let top := xstack_top σ2.stack
          let rs3 :=
            if top.isEmpty then
              rs2.map (fun r =>
                match wrays.get? r.id with
                | some wr => r.update_from_world_ray wr
                | none => r)
            else
              rs2.map (fun r =>
                match wrays.get? r.id with
                | some wr => r.update_from_xformed_world_ray wr (lerp_slice_m top r.time)
                | none => r)
          (rs3, σ2)
        else (rs2, out.2))
      st

/-- Tracer::trace (tracer.rs): derive id-stamped accel rays from the world
rays, reset the intersection buffer to Miss per ray, split by direction
octant and trace each non-empty batch through the root assembly.  Returns
the intersection buffer and the final accel rays. -/
def Tracer.trace (fuel : Nat) (root : Assembly) (wrays : List Ray) :
    List SurfaceIntersection × List AccelRay :=
  let rays := List.zipWith AccelRay.new wrays (List.range wrays.length)
  let isects := List.replicate wrays.length SurfaceIntersection.Miss
  let sets := split_rays_by_direction rays
  let out := sets.foldl
    (fun (acc : List (List AccelRay) × TraceSt) rset =>
      if rset.isEmpty then (acc.1 ++ [rset], acc.2)
      else
        let r := trace_assembly fuel root wrays rset acc.2
        (acc.1 ++ [r.1], r.2))
    ([], ⟨isects, []⟩)
  (out.2.isects, out.1.flatten)

/-- "Ray i intersects no primitive": every surface reachable in the
assembly tree reports no hit for any accel ray carrying id i, whatever the
transform slice. -/
inductive AllMiss (i : Nat) : Assembly → Prop
  | mk (instances : List Instance) (xforms : List Matrix)
      (objects : List SObject) (assemblies : List Assembly) (accel : BVH)
      (hobj : ∀ ob ∈ objects, ∀ r xfs, r.id = i → ob.srf.hit r xfs = none)
      (hasm : ∀ a ∈ assemblies, AllMiss i a) :
      AllMiss i (Assembly.mk instances xforms objects assemblies accel)

/-- Empty assembly used by concrete evaluations. -/
def emptyAssembly : Assembly := Assembly.mk [] [] [] [] BVH.new_empty

/-- World ray with a finite max_t used by the C3 counterexample. -/
def demoFiniteRay : Ray := ⟨⟨0, 0, 0⟩, ⟨1, 0, 0⟩, 0, 0, some 1, true⟩

end Psychopath

namespace Psychopath

/-! Helper lemmas. -/

theorem traverse_loop_nil_stack {T σ : Type} (nodes : List BVHNode) (bnds : List BBox)
    (objects : List T) (test : T → List AccelRay → σ → List AccelRay × σ)
    (fuel : Nat) (rays : List AccelRay) (s : σ) :
    traverse_loop nodes bnds objects test fuel rays [] s = (rays, s) := by
  cases fuel <;> rfl

theorem traverse_loop_nil_rays {T σ : Type} (nodes : List BVHNode) (bnds : List BBox)
    (objects : List T) (test : T → List AccelRay → σ → List AccelRay × σ)
    (fuel : Nat) (stack : List (Nat × Nat)) (s : σ) :
    traverse_loop nodes bnds objects test fuel [] stack s = ([], s) := by
  induction fuel generalizing stack with
  | zero => rfl
  | succ n ih =>
    match stack with
    | [] => rfl
    | (ni, cnt) :: rest =>
      rw [traverse_loop]
      rcases h : nodes.get? ni with _ | nd
      · rfl
      · rcases nd with ⟨br, sci, ax⟩ | ⟨br, orange⟩ <;>
          simp [spartition, ih]

theorem spartition_take (p : α → Bool) (xs : List α) :
    ((spartition p xs).2.take (spartition p xs).1) = xs.filter p := by
  simp [spartition, List.take_left]

theorem spartition_drop (p : α → Bool) (xs : List α) :
    ((spartition p xs).2.drop (spartition p xs).1) = xs.filter (fun a => !(p a)) := by
  simp [spartition, List.drop_left]

theorem filter_filter_append_perm (p : α → Bool) (xs : List α) :
    (xs.filter p ++ xs.filter (fun a => !(p a))).Perm xs :=
  List.filter_append_perm p xs

theorem count_filter_neg {α : Type} [DecidableEq α] (p : α → Bool) (a : α) (l : List α)
    (h : p a = false) : List.count a (l.filter p) = 0 := by
  refine List.count_eq_zero.2 (fun hmem => ?_)
  rw [List.mem_filter] at hmem
  rw [hmem.2] at h
  simp at h

/-! Claim theorems. -/

set_option maxRecDepth 100000
set_option maxHeartbeats 4000000

/-- Claim C1 (the spec's depth invariant fails on the code): building a BVH
from 67 primitives whose bounds are the identical single-sample point box
at the origin, with objects_per_leaf = 1, yields tree_depth() = 65, which
exceeds DEPTH_MAX = 64.  With all centroids equal, the clamped SAH
partition splits off one object per level for 62 levels; the balanced
fallback then engages at depth 62 with 5 objects, which needs 3 more
levels, so leaves land at depth 65.  This contradicts the source's own
intent (the balanced fallback exists to avoid exceeding max depth, and the
traversal stack only holds BVH_MAX_DEPTH + 2 entries). -/
theorem c1_depth_overflow :
    (from_objects (List.replicate 67 ()) 1 (fun _ => [unitPoint])).tree_depth = 65 := by
  with_unfolding_all decide

/-- Claim C5: split_rays_by_direction returns 8 sub-slices that together
partition the input accel-ray slice: their concatenation is a permutation
of the input multiset, their lengths sum to the input length, and within
each sub-slice all rays agree on the stored direction sign (the dir_inv
test the code performs; dir_inv preserves the direction's sign per the
spec) on each of the x, y and z axes, so every batch shares a near/far
traversal order on every axis. -/
theorem c5_split_rays_partition (rays : List AccelRay) :
    (split_rays_by_direction rays).length = 8 ∧
    ((split_rays_by_direction rays).flatten).Perm rays ∧
    ((split_rays_by_direction rays).map List.length).sum = rays.length ∧
    (∀ b ∈ split_rays_by_direction rays, ∀ r ∈ b, ∀ r' ∈ b,
      xpos r = xpos r' ∧ ypos r = ypos r' ∧ zpos r = zpos r') := by
  have hb : split_rays_by_direction rays =
      [ ((rays.filter xpos).filter ypos).filter zpos,
        ((rays.filter xpos).filter ypos).filter (fun a => !(zpos a)),
        ((rays.filter xpos).filter (fun a => !(ypos a))).filter zpos,
        ((rays.filter xpos).filter (fun a => !(ypos a))).filter (fun a => !(zpos a)),
        ((rays.filter (fun a => !(xpos a))).filter ypos).filter zpos,
        ((rays.filter (fun a => !(xpos a))).filter ypos).filter (fun a => !(zpos a)),
        ((rays.filter (fun a => !(xpos a))).filter (fun a => !(ypos a))).filter zpos,
        ((rays.filter (fun a => !(xpos a))).filter (fun a => !(ypos a))).filter
          (fun a => !(zpos a))] := by
    simp only [split_rays_by_direction, spartition_take, spartition_drop]
  have hperm : ((split_rays_by_direction rays).flatten).Perm rays := by
    rw [hb, List.perm_iff_count]
    intro a
    simp only [List.flatten, List.count_append, List.count_filter, List.count_nil]
    cases hx : xpos a <;> cases hy : ypos a <;> cases hz : zpos a <;>
      simp [List.count_filter, count_filter_neg, hx, hy, hz]
  refine ⟨by rw [hb]; rfl, hperm, ?_, ?_⟩
  · rw [← List.length_flatten]
    exact hperm.length_eq
  · intro b hbm r hr r' hr'
    rw [hb] at hbm
    simp only [List.mem_cons, List.not_mem_nil, or_false] at hbm
    rcases hbm with h | h | h | h | h | h | h | h <;>
      (subst h
       simp only [List.mem_filter] at hr hr'
       refine ⟨?_, ?_, ?_⟩ <;> simp_all)

/-- Claim C8: BVH::traverse is a no-op for an empty BVH and for an empty
ray batch: with an empty node array it returns the rays unchanged, and with
an empty accel-ray slice it returns immediately; in both cases the callback
state is returned untouched for every possible obj_ray_test callback, which
(instantiating the callback with an invocation counter) means the callback
is never invoked. -/
theorem c8_traverse_noop {T σ : Type} (bvh : BVH) (fuel : Nat) (rays : List AccelRay)
    (objects : List T) (test : T → List AccelRay → σ → List AccelRay × σ) (s : σ) :
    (bvh.nodes = [] → bvh.traverse fuel rays objects test s = (rays, s)) ∧
    bvh.traverse fuel [] objects test s = ([], s) := by
  constructor
  · intro h
    simp [BVH.traverse, h]
  · unfold BVH.traverse
    by_cases h : bvh.nodes.length = 0
    · simp [h]
    · simp only [h, if_false]
      exact traverse_loop_nil_rays _ _ _ _ _ _ _

/-- Witness for C8 at a concrete BVH, ray list and callback. -/
theorem c8_traverse_noop_witness :
    ((BVH.new_empty.nodes = []) →
      BVH.new_empty.traverse 5 [] ([] : List Unit) (fun _ rs n => (rs, n + 1)) (0 : Nat)
        = ([], 0)) ∧
    BVH.new_empty.traverse 5 [] ([] : List Unit) (fun _ rs n => (rs, n + 1)) (0 : Nat)
      = ([], 0) :=
  c8_traverse_noop BVH.new_empty 5 [] [] (fun _ rs n => (rs, n + 1)) 0

/-- Claim C9: the Boundable impl of BVH::bounds indexes nodes[0]
unconditionally: it fails (a panic, modelled as none) exactly on an empty
node array — as produced by new_empty, or by from_objects on an empty
primitive slice, which emits no nodes — and otherwise returns the root
node's bounds slice, so non-emptiness is an unstated precondition of
bounds(). -/
theorem c9_root_bounds_requires_nonempty {T : Type} (objects_per_leaf : Nat)
    (bounder : T → List BBox) :
    BVH.new_empty.root_bounds = none ∧
    (from_objects ([] : List T) objects_per_leaf bounder).nodes = [] ∧
    (from_objects ([] : List T) objects_per_leaf bounder).root_bounds = none ∧
    (∀ bvh : BVH, bvh.root_bounds = none ↔ bvh.nodes = []) := by
  refine ⟨rfl, rfl, rfl, fun bvh => ?_⟩
  unfold BVH.root_bounds
  match h : bvh.nodes with
  | [] => simp
  | nd :: rest => rcases nd with ⟨br, sci, ax⟩ | ⟨br, orange⟩ <;> simp

end Psychopath

namespace Psychopath

theorem bunion_assoc (x y z : BBox) : bunion (bunion x y) z = bunion x (bunion y z) := by
  simp [bunion, vmin, vmax, min_assoc, max_assoc]

theorem bunion_comm (x y : BBox) : bunion x y = bunion y x := by
  simp [bunion, vmin, vmax, min_comm, max_comm]

theorem zbu_assoc (a b c : List BBox) :
    List.zipWith bunion (List.zipWith bunion a b) c =
      List.zipWith bunion a (List.zipWith bunion b c) := by
  induction a generalizing b c with
  | nil => simp
  | cons x xs ih =>
    cases b with
    | nil => simp
    | cons y ys =>
      cases c with
      | nil => simp
      | cons z zs => simp [bunion_assoc, ih]

theorem zbu_comm (a b : List BBox) :
    List.zipWith bunion a b = List.zipWith bunion b a := by
  induction a generalizing b with
  | nil => cases b <;> simp
  | cons x xs ih =>
    cases b with
    | nil => simp
    | cons y ys => simp [bunion_comm, ih]

theorem acc_run_some {T : Type} (bounder : T → List BBox) :
    ∀ (rest : List T) (a : List BBox),
      (rest.foldl
        (fun acc ob =>
          match acc with
          | none => some (bounder ob)
          | some x => some (List.zipWith bunion x (bounder ob)))
        (some a)) =
      some (rest.foldl (fun acc ob => List.zipWith bunion acc (bounder ob)) a) := by
  intro rest
  induction rest with
  | nil => intro a; rfl
  | cons p ps ih => intro a; simp only [List.foldl_cons]; exact ih _

theorem acc_bounds_eq_run {T : Type} (bounder : T → List BBox) (objs : List T) :
    acc_bounds bounder objs = (acc_run bounder objs).getD [] := by
  cases objs with
  | nil => rfl
  | cons o rest =>
    unfold acc_bounds acc_run
    simp only [List.foldl_cons]
    rw [acc_run_some]
    rfl

theorem acc_run_perm {T : Type} (bounder : T → List BBox) {l1 l2 : List T}
    (h : l1.Perm l2) : acc_run bounder l1 = acc_run bounder l2 := by
  unfold acc_run
  refine @List.Perm.foldl_eq _ _ _ _ _ ⟨fun b a1 a2 => ?_⟩ h _
  cases b with
  | none => simp [zbu_comm]
  | some x => simp [zbu_assoc, zbu_comm (bounder a1) (bounder a2)]

theorem acc_bounds_perm {T : Type} (bounder : T → List BBox) {l1 l2 : List T}
    (h : l1.Perm l2) : acc_bounds bounder l1 = acc_bounds bounder l2 := by
  rw [acc_bounds_eq_run, acc_bounds_eq_run, acc_run_perm bounder h]

theorem acc_fold_zip {T : Type} (bounder : T → List BBox) :
    ∀ (bs : List T) (a c : List BBox),
      bs.foldl (fun acc ob => List.zipWith bunion acc (bounder ob)) (List.zipWith bunion a c) =
      List.zipWith bunion a (bs.foldl (fun acc ob => List.zipWith bunion acc (bounder ob)) c) := by
  intro bs
  induction bs with
  | nil => intro a c; rfl
  | cons p ps ih =>
    intro a c
    simp only [List.foldl_cons]
    rw [zbu_assoc, ih]

theorem acc_bounds_append {T : Type} (bounder : T → List BBox) (A B : List T)
    (hA : A ≠ []) (hB : B ≠ []) :
    acc_bounds bounder (A ++ B) =
      List.zipWith bunion (acc_bounds bounder A) (acc_bounds bounder B) := by
  match A, B with
  | a :: as0, b :: bs0 =>
    unfold acc_bounds
    simp only [List.cons_append, List.foldl_append, List.foldl_cons]
    rw [← acc_fold_zip]

theorem acc_fold_length {T : Type} (bounder : T → List BBox) (L : Nat) :
    ∀ (rest : List T) (a : List BBox), a.length = L →
      (∀ o ∈ rest, (bounder o).length = L) →
      (rest.foldl (fun acc ob => List.zipWith bunion acc (bounder ob)) a).length = L := by
  intro rest
  induction rest with
  | nil => intro a ha _; exact ha
  | cons p ps ih =>
    intro a ha hall
    simp only [List.foldl_cons]
    refine ih _ ?_ (fun o ho => hall o (by simp [ho]))
    have hp : (bounder p).length = L := hall p (by simp)
    simp [ha, hp]

theorem acc_bounds_length {T : Type} (bounder : T → List BBox) (L : Nat)
    (objs : List T) (hne : objs ≠ []) (hall : ∀ o ∈ objs, (bounder o).length = L) :
    (acc_bounds bounder objs).length = L := by
  match objs with
  | o :: rest =>
    unfold acc_bounds
    exact acc_fold_length bounder L rest (bounder o) (hall o (by simp))
      (fun o' ho' => hall o' (by simp [ho']))

theorem ordered_insert_perm {α : Type} (le : α → α → Bool) (a : α) :
    ∀ (l : List α), (ordered_insert le a l).Perm (a :: l) := by
  intro l
  induction l with
  | nil => rfl
  | cons b bs ih =>
    unfold ordered_insert
    by_cases h : le a b = true
    · simp [h]
    · rw [if_neg h]
      exact (ih.cons b).trans (List.Perm.swap a b bs)

theorem insertion_sort_perm {α : Type} (le : α → α → Bool) :
    ∀ (l : List α), (insertion_sort le l).Perm l := by
  intro l
  induction l with
  | nil => rfl
  | cons a as ih =>
    unfold insertion_sort
    exact (ordered_insert_perm le a _).trans (ih.cons a)

theorem obunion_some_fold {T : Type} (bounder : T → List BBox) (i : Nat) :
    ∀ (rest : List T) (y : BBox),
      rest.foldl (fun acc o => obunion acc ((bounder o).getD i bboxDefault)) (some y) =
      some (rest.foldl (fun x o => bunion x ((bounder o).getD i bboxDefault)) y) := by
  intro rest
  induction rest with
  | nil => intro y; rfl
  | cons p ps ih => intro y; simp only [List.foldl_cons, obunion]; exact ih _

theorem zip_fold_get {T : Type} (bounder : T → List BBox) (L : Nat) (i : Nat) (hi : i < L) :
    ∀ (rest : List T) (a : List BBox), a.length = L →
      (∀ o ∈ rest, (bounder o).length = L) →
      (rest.foldl (fun acc ob => List.zipWith bunion acc (bounder ob)) a).get? i =
      some (rest.foldl (fun x o => bunion x ((bounder o).getD i bboxDefault))
        (a.getD i bboxDefault)) := by
  intro rest
  induction rest with
  | nil =>
    intro a ha _
    have hia : i < a.length := ha ▸ hi
    simp [List.get?_eq_getElem?, List.getElem?_eq_getElem hia, List.getD_eq_getElem?_getD,
      List.getElem?_eq_getElem]
  | cons p ps ih =>
    intro a ha hall
    have hp : (bounder p).length = L := hall p (by simp)
    have hia : i < a.length := ha ▸ hi
    have hip : i < (bounder p).length := hp ▸ hi
    simp only [List.foldl_cons]
    rw [ih _ (by simp [ha, hp]) (fun o ho => hall o (by simp [ho]))]
    congr 2
    simp [List.getD_eq_getElem?_getD, List.getElem?_zipWith,
      List.getElem?_eq_getElem hia, List.getElem?_eq_getElem hip]

theorem union_at_eq_get {T : Type} (bounder : T → List BBox) (L : Nat) (i : Nat) (hi : i < L)
    (objs : List T) (hne : objs ≠ []) (hall : ∀ o ∈ objs, (bounder o).length = L) :
    (acc_bounds bounder objs).get? i = union_at bounder objs i := by
  match objs with
  | o :: rest =>
    unfold acc_bounds union_at
    simp only [List.foldl_cons]
    have h1 : obunion none ((bounder o).getD i bboxDefault) =
        some ((bounder o).getD i bboxDefault) := rfl
    rw [h1, obunion_some_fold]
    exact zip_fold_get bounder L i hi rest (bounder o) (hall o (by simp))
      (fun o' ho' => hall o' (by simp [ho']))

end Psychopath

namespace Psychopath

theorem clamp_bounds (si0 n : Nat) (h2 : 2 ≤ n) :
    1 ≤ (if si0 < 1 then 1 else if n ≤ si0 then n - 1 else si0) ∧
    (if si0 < 1 then 1 else if n ≤ si0 then n - 1 else si0) < n := by
  split_ifs <;> omega

theorem split_step_perm {T : Type} (bounder : T → List BBox) (depth : Nat) (objects : List T)
    (bounds : BBox) : (split_step bounder depth objects bounds).1.Perm objects := by
  unfold split_step
  by_cases h : log2_64 objects.length < BVH_MAX_DEPTH - depth
  · rw [if_pos h]
    exact List.filter_append_perm _ objects
  · rw [if_neg h]
    exact insertion_sort_perm _ objects

theorem split_step_index {T : Type} (bounder : T → List BBox) (depth : Nat) (objects : List T)
    (bounds : BBox) (h2 : 2 ≤ objects.length) :
    1 ≤ (split_step bounder depth objects bounds).2.1 ∧
    (split_step bounder depth objects bounds).2.1 < objects.length := by
  unfold split_step
  by_cases h : log2_64 objects.length < BVH_MAX_DEPTH - depth
  · rw [if_pos h]
    exact clamp_bounds _ _ h2
  · rw [if_neg h]
    refine ⟨(Nat.one_le_div_iff (by omega)).2 h2, Nat.div_lt_self (by omega) (by omega)⟩

theorem slice_append_left (a b : List BBox) (lo L : Nat) (h : lo + L ≤ a.length) :
    (((a ++ b).drop lo).take L) = ((a.drop lo).take L) := by
  rw [List.drop_append_of_le_length (by omega)]
  rw [List.take_append_of_le_length (by simp; omega)]

end Psychopath

namespace Psychopath

theorem obunion_fold_some {T : Type} (bounder : T → List BBox) :
    ∀ (l : List T) (b : BBox),
      l.foldl (fun bb obj => obunion bb (lerp_slice (bounder obj) (1 / 2))) (some b) ≠ none := by
  intro l
  induction l with
  | nil => intro b h; simp at h
  | cons p ps ih => intro b; simp only [List.foldl_cons, obunion]; exact ih _

theorem centroid_bounds_ne_none {T : Type} (bounder : T → List BBox) (objects : List T)
    (hne : objects ≠ []) : centroid_bounds bounder objects ≠ none := by
  match objects with
  | o :: rest =>
    unfold centroid_bounds
    simp only [List.foldl_cons, obunion]
    exact obunion_fold_some bounder rest _

theorem recursive_build_ok {T : Type} (bounder : T → List BBox) (opl : Nat)
    (hopl : 1 ≤ opl) (L : Nat) :
    ∀ (fuel offset depth : Nat) (objects : List T) (st : BVH),
      objects.length < fuel → objects ≠ [] →
      (∀ o ∈ objects, (bounder o).length = L) →
      BuildOk bounder L objects st
        (recursive_build bounder opl fuel offset depth objects st) := by
  intro fuel
  induction fuel with
  | zero =>
    intro _ _ objects _ hf _ _
    omega
  | succ n ih =>
    intro offset depth objects st hf hne hall
    have h0 : ¬ (objects.length = 0) := fun h => hne (List.length_eq_zero.mp h)
    simp only [recursive_build]
    rw [if_neg h0]
    by_cases hleaf : objects.length ≤ opl
    · rw [if_pos hleaf]
      have hcl : (acc_bounds bounder objects).length = L :=
        acc_bounds_length bounder L objects hne hall
      refine ⟨List.Perm.refl _, rfl, by simp, ?_, ⟨acc_bounds bounder objects, rfl⟩,
        by simp, by simp [hcl], ?_, ?_⟩
      · intro j hj
        exact List.get?_append hj
      · exact ⟨_, List.get?_concat_length _ _, rfl⟩
      · show ((st.bounds ++ acc_bounds bounder objects).drop st.bounds.length).take L = _
        rw [List.drop_left, ← hcl, List.take_length]
    · rw [if_neg hleaf]
      have h2 : 2 ≤ objects.length := by omega
      split
      rotate_left
      · rename_i heq
        exact absurd heq (centroid_bounds_ne_none bounder objects hne)
      rename_i bnds heq
      rcases hsp : split_step bounder depth objects bnds with ⟨objs1, si, ax⟩
      dsimp only
      have hperm1 : objs1.Perm objects := by
        have h := split_step_perm bounder depth objects bnds
        rw [hsp] at h; exact h
      have hidx : 1 ≤ si ∧ si < objects.length := by
        have h := split_step_index bounder depth objects bnds h2
        rw [hsp] at h; exact h
      have hlen1 : objs1.length = objects.length := hperm1.length_eq
      have hallo1 : ∀ o ∈ objs1, (bounder o).length = L :=
        fun o ho => hall o (hperm1.mem_iff.mp ho)
      have hAlen : (objs1.take si).length = si := by
        rw [List.length_take]; omega
      have hBlen : (objs1.drop si).length = objs1.length - si := by
        rw [List.length_drop]
      have hAne : objs1.take si ≠ [] := by
        intro h; rw [h] at hAlen; simp at hAlen; omega
      have hBne : objs1.drop si ≠ [] := by
        intro h; rw [h] at hBlen; simp at hBlen; omega
      have hallA : ∀ o ∈ objs1.take si, (bounder o).length = L :=
        fun o ho => hallo1 o (List.take_subset _ _ ho)
      have hallB : ∀ o ∈ objs1.drop si, (bounder o).length = L :=
        fun o ho => hallo1 o (List.drop_subset _ _ ho)
      have hfA : (objs1.take si).length < n := by rw [hAlen]; omega
      have hfB : (objs1.drop si).length < n := by rw [hBlen]; omega
      have hb1 := ih offset (depth + 1) (objs1.take si)
        { st with nodes := st.nodes ++ [BVHNode.internal (0, 0) 0 0] } hfA hAne hallA
      have hb2 := ih (offset + si) (depth + 1) (objs1.drop si)
        ((recursive_build bounder opl n offset (depth + 1) (objs1.take si)
          { st with nodes := st.nodes ++ [BVHNode.internal (0, 0) 0 0] }).1) hfB hBne hallB
      set R1 := recursive_build bounder opl n offset (depth + 1) (objs1.take si)
        { st with nodes := st.nodes ++ [BVHNode.internal (0, 0) 0 0] } with hR1
      set R2 := recursive_build bounder opl n (offset + si) (depth + 1) (objs1.drop si) R1.1
        with hR2
      obtain ⟨P1, M1, G1, Pres1, ⟨ext1, E1⟩, L1, K1, ⟨nd1, N1, NB1⟩, S1⟩ := hb1
      obtain ⟨P2, M2, G2, Pres2, ⟨ext2, E2⟩, L2, K2, ⟨nd2, N2, NB2⟩, S2⟩ := hb2
      dsimp only at P1 M1 G1 Pres1 E1 L1 K1 N1 NB1 S1 P2 M2 G2 Pres2 E2 L2 K2 N2 NB2 S2
      simp only [List.length_append, List.length_cons, List.length_nil] at G1 Pres1 M1
      have hX : (R2.1.bounds.drop R1.2.2.2.1).take (R1.2.2.2.2 - R1.2.2.2.1) =
          acc_bounds bounder (objs1.take si) := by
        have hsub : R1.2.2.2.2 - R1.2.2.2.1 = L := by omega
        rw [hsub, E2, slice_append_left _ _ _ _ (by omega), S1]
      have hY : (R2.1.bounds.drop R2.2.2.2.1).take (R2.2.2.2.2 - R2.2.2.2.1) =
          acc_bounds bounder (objs1.drop si) := by
        have hsub : R2.2.2.2.2 - R2.2.2.2.1 = L := by omega
        rw [hsub, S2]
      have hM : merge_slices bunion
          ((R2.1.bounds.drop R1.2.2.2.1).take (R1.2.2.2.2 - R1.2.2.2.1))
          ((R2.1.bounds.drop R2.2.2.2.1).take (R2.2.2.2.2 - R2.2.2.2.1)) =
          acc_bounds bounder objects := by
        rw [hX, hY]
        unfold merge_slices
        rw [← acc_bounds_append bounder _ _ hAne hBne, List.take_append_drop]
        exact acc_bounds_perm bounder hperm1
      have hMlen : (merge_slices bunion
          ((R2.1.bounds.drop R1.2.2.2.1).take (R1.2.2.2.2 - R1.2.2.2.1))
          ((R2.1.bounds.drop R2.2.2.2.1).take (R2.2.2.2.2 - R2.2.2.2.1))).length = L := by
        rw [hM]
        exact acc_bounds_length bounder L objects hne hall
      have hme2 : st.nodes.length < R2.1.nodes.length := by omega
      refine ⟨?_, rfl, ?_, ?_, ?_, ?_, ?_, ?_, ?_⟩
      · exact (P1.append P2).trans (by rw [List.take_append_drop]; exact hperm1)
      · simp only [List.length_set]
        omega
      · intro j hj
        rw [List.get?_set_ne _ _ (by omega)]
        rw [Pres2 j (by omega), Pres1 j (by omega)]
        exact List.get?_append (by omega)
      · refine ⟨ext1 ++ ext2 ++ merge_slices bunion
          ((R2.1.bounds.drop R1.2.2.2.1).take (R1.2.2.2.2 - R1.2.2.2.1))
          ((R2.1.bounds.drop R2.2.2.2.1).take (R2.2.2.2.2 - R2.2.2.2.1)), ?_⟩
        show R2.1.bounds ++ _ = _
        rw [E2, E1]
        simp [List.append_assoc]
      · simp [List.length_append]
      · dsimp only
        congr 1
        exact hMlen.symm
      · exact ⟨_, List.get?_set_eq_of_lt _ hme2, rfl⟩
      · show ((R2.1.bounds ++ _).drop R2.1.bounds.length).take L = _
        rw [List.drop_left, ← hMlen, List.take_length, hM]

end Psychopath

namespace Psychopath

/-- Claim C2: for every non-empty primitive slice whose primitives all have
bounds sequences of one common length L (and a meaningful objects_per_leaf
≥ 1; the source does not terminate on 0), the root bounds of the built BVH
is exactly the element-wise union of all primitive bounds: it equals the
acc_bounds fold of the slice, has length L, and its i-th sample is the
union (component-wise min/max) of the i-th time-sample bounds of all
primitives. -/
theorem c2_root_bounds_union {T : Type} (objects : List T) (objects_per_leaf : Nat)
    (bounder : T → List BBox) (L : Nat)
    (hopl : 1 ≤ objects_per_leaf) (hne : objects ≠ [])
    (hall : ∀ o ∈ objects, (bounder o).length = L) :
    (from_objects objects objects_per_leaf bounder).root_bounds =
      some (acc_bounds bounder objects) ∧
    (acc_bounds bounder objects).length = L ∧
    (∀ i, i < L → (acc_bounds bounder objects).get? i = union_at bounder objects i) := by
  have hb := recursive_build_ok bounder objects_per_leaf hopl L (objects.length + 1) 0 0
    objects BVH.new_empty (by omega) hne hall
  set R := recursive_build bounder objects_per_leaf (objects.length + 1) 0 0 objects
    BVH.new_empty with hR
  obtain ⟨P, M, G, Pres, ⟨ext, E⟩, LL, K, ⟨nd, N, NB⟩, S⟩ := hb
  refine ⟨?_, acc_bounds_length bounder L objects hne hall,
    fun i hi => union_at_eq_get bounder L i hi objects hne hall⟩
  have hM0 : R.2.2.1 = 0 := M
  rw [hM0] at N
  unfold from_objects
  rw [← hR]
  unfold BVH.root_bounds
  dsimp only
  rw [← List.get?_zero, N]
  rcases nd with ⟨br, sci, sax⟩ | ⟨br, orange⟩ <;>
    (dsimp only
     have hbr : br = (R.2.2.2.1, R.2.2.2.2) := NB
     rw [hbr]
     dsimp only
     have hsub : R.2.2.2.2 - R.2.2.2.1 = L := by omega
     rw [hsub, S])

end Psychopath

namespace Psychopath

/-- Witness for C2 at two concrete one-sample primitives. -/
theorem c2_root_bounds_union_witness :
    (from_objects [[demoBoxA], [demoBoxB]] 1 (fun l => l)).root_bounds =
      some (acc_bounds (fun l => l) [[demoBoxA], [demoBoxB]]) ∧
    (acc_bounds (fun l => l) [[demoBoxA], [demoBoxB]]).length = 1 ∧
    (acc_bounds (fun l => l) [[demoBoxA], [demoBoxB]]).get? 0 =
      union_at (fun l => l) [[demoBoxA], [demoBoxB]] 0 := by
  have h := c2_root_bounds_union [[demoBoxA], [demoBoxB]] 1 (fun l => l) 1
    (by decide) (by decide)
    (by intro o ho; simp only [List.mem_cons, List.not_mem_nil, or_false] at ho
        rcases ho with h | h <;> rw [h] <;> rfl)
  exact ⟨h.1, h.2.1, h.2.2 0 (by decide)⟩

end Psychopath

namespace Psychopath

theorem c4_shadow_ray_step (S : Samplers) (scene : SceneModel)
    (isect : SurfaceIntersection) (ray : Ray) (p : LightPath)
    (h : p.event = LightPathEvent.ShadowRay) :
    (isect = SurfaceIntersection.Miss →
      (LightPath.next S scene isect ray p).1.color =
        p.color.add p.pending_color_addition) ∧
    (∀ idata closure, isect = SurfaceIntersection.Hit idata closure →
      (LightPath.next S scene isect ray p).1.color = p.color) ∧
    (∀ nbr, p.next_bounce_ray = some nbr →
      (LightPath.next S scene isect ray p).2.1 = nbr ∧
      (LightPath.next S scene isect ray p).1.light_attenuation =
        p.light_attenuation.mul p.next_attenuation_fac ∧
      (LightPath.next S scene isect ray p).1.event = LightPathEvent.BounceRay ∧
      (LightPath.next S scene isect ray p).2.2 = true) ∧
    (p.next_bounce_ray = none → (LightPath.next S scene isect ray p).2.2 = false) := by
  refine ⟨?_, ?_, ?_, ?_⟩
  · intro hm
    subst hm
    rcases hnb : p.next_bounce_ray with _ | nbr <;>
      simp [LightPath.next, h, hnb]
  · intro idata closure hm
    subst hm
    rcases hnb : p.next_bounce_ray with _ | nbr <;>
      simp [LightPath.next, h, hnb]
  · intro nbr hnb
    rcases isect with _ | ⟨idata, closure⟩ <;>
      simp [LightPath.next, h, hnb]
  · intro hnb
    rcases isect with _ | ⟨idata, closure⟩ <;>
      simp [LightPath.next, h, hnb]

end Psychopath

namespace Psychopath

theorem prepare_bounce_spec (S : Samplers) (scene : SceneModel) (mat : SurfaceClosureFns)
    (idata : IntersectionData) (p : LightPath) :
    (p.bounce_count < 2 →
      (prepare_bounce S scene mat idata p).1.bounce_count = p.bounce_count + 1) ∧
    (¬ p.bounce_count < 2 →
      (prepare_bounce S scene mat idata p).1.bounce_count = p.bounce_count ∧
      (prepare_bounce S scene mat idata p).1.next_bounce_ray = none ∧
      (prepare_bounce S scene mat idata p).2 = false) ∧
    (prepare_bounce S scene mat idata p).1.event = p.event ∧
    ((prepare_bounce S scene mat idata p).2 = true →
      (prepare_bounce S scene mat idata p).1.next_bounce_ray.isSome) := by
  unfold prepare_bounce
  by_cases h : p.bounce_count < 2
  · simp only [if_pos h]
    split <;> simp [next_lds_samp, h]
  · simp [if_neg h, h]

theorem bookkeep_spec (p : LightPath) (fl : Option (Float4 × Ray)) (db : Bool) (ray : Ray)
    (ht : (next_bookkeep p fl db ray).2.2 = true) :
    ((next_bookkeep p fl db ray).1.bounce_count = p.bounce_count) ∧
    ((next_bookkeep p fl db ray).1.event = LightPathEvent.ShadowRay ∧
      (next_bookkeep p fl db ray).1.next_bounce_ray = p.next_bounce_ray) ∨
    ((next_bookkeep p fl db ray).1.bounce_count = p.bounce_count ∧
      (next_bookkeep p fl db ray).1.event = LightPathEvent.BounceRay) := by
  unfold next_bookkeep at ht ⊢
  rcases fl with _ | ⟨pending, sray⟩
  · by_cases hdb : db = true
    · rcases hnb : p.next_bounce_ray with _ | nbr
      · simp [hdb, hnb] at ht
      · right
        simp [hdb, hnb]
    · simp [hdb] at ht
  · left
    simp

end Psychopath

namespace Psychopath

theorem bookkeep_spec2 (p : LightPath) (fl : Option (Float4 × Ray)) (db : Bool) (ray : Ray)
    (ht : (next_bookkeep p fl db ray).2.2 = true) :
    ((next_bookkeep p fl db ray).1.bounce_count = p.bounce_count ∧
      (next_bookkeep p fl db ray).1.event = LightPathEvent.ShadowRay ∧
      (next_bookkeep p fl db ray).1.next_bounce_ray = p.next_bounce_ray) ∨
    ((next_bookkeep p fl db ray).1.bounce_count = p.bounce_count ∧
      (next_bookkeep p fl db ray).1.event = LightPathEvent.BounceRay ∧
      db = true) := by
  unfold next_bookkeep at ht ⊢
  rcases fl with _ | ⟨pending, sray⟩
  · by_cases hdb : db = true
    · rcases hnb : p.next_bounce_ray with _ | nbr
      · simp [hdb, hnb] at ht
      · right
        simp [hdb, hnb]
    · simp [hdb] at ht
  · left
    simp

theorem measure_of_shadow (p : LightPath) (h : p.event = LightPathEvent.ShadowRay) :
    p.measure = if p.next_bounce_ray.isSome then 2 * (2 - p.bounce_count) + 2 else 0 := by
  simp [LightPath.measure, h]

theorem measure_of_bounce (p : LightPath) (h : p.event = LightPathEvent.BounceRay) :
    p.measure = 2 * (2 - p.bounce_count) + 1 := by
  simp [LightPath.measure, h]

theorem material_arm_step (S : Samplers) (scene : SceneModel) (mat : SurfaceClosureFns)
    (idata : IntersectionData) (ray : Ray) (q : LightPath) (fl : Option (Float4 × Ray))
    (ht : (next_bookkeep (prepare_bounce S scene mat idata q).1 fl
        (prepare_bounce S scene mat idata q).2 ray).2.2 = true)
    (hq : q.bounce_count ≤ 2) :
    (next_bookkeep (prepare_bounce S scene mat idata q).1 fl
        (prepare_bounce S scene mat idata q).2 ray).1.bounce_count ≤ 2 ∧
    (next_bookkeep (prepare_bounce S scene mat idata q).1 fl
        (prepare_bounce S scene mat idata q).2 ray).1.measure <
      2 * (2 - q.bounce_count) + 1 := by
  obtain ⟨hlt, hge, _, hsome⟩ := prepare_bounce_spec S scene mat idata q
  rcases bookkeep_spec2 _ fl _ ray ht with ⟨hcnt, hev', hnbr⟩ | ⟨hcnt, hev', hdb⟩
  · rw [measure_of_shadow _ hev', hcnt, hnbr]
    by_cases h2 : q.bounce_count < 2
    · rw [hlt h2]
      cases hs : (prepare_bounce S scene mat idata q).1.next_bounce_ray.isSome <;>
        simp [hs] <;> omega
    · obtain ⟨hc2, hnone, _⟩ := hge h2
      rw [hc2, hnone]
      simp
      omega
  · rw [measure_of_bounce _ hev', hcnt]
    have h2 : q.bounce_count < 2 := by
      by_contra h2
      exact absurd hdb (by simp [(hge h2).2.2])
    rw [hlt h2]
    constructor
    · omega
    · omega

end Psychopath

namespace Psychopath

theorem next_true_decreases (S : Samplers) (scene : SceneModel)
    (isect : SurfaceIntersection) (ray : Ray) (p : LightPath)
    (hc : p.bounce_count ≤ 2)
    (ht : (LightPath.next S scene isect ray p).2.2 = true) :
    (LightPath.next S scene isect ray p).1.bounce_count ≤ 2 ∧
    (LightPath.next S scene isect ray p).1.measure < p.measure := by
  rcases hev : p.event with _ | _ | _
  case ShadowRay =>
    rcases hnb : p.next_bounce_ray with _ | nbr
    · rcases isect with _ | ⟨i, c⟩ <;> simp [LightPath.next, hev, hnb] at ht
    · rcases isect with _ | ⟨i, c⟩ <;>
        (simp [LightPath.next, hev, hnb, LightPath.measure]; omega)
  all_goals (
    rcases isect with _ | ⟨idata, closure⟩
    · simp [LightPath.next, hev] at ht
    · rcases closure with ecolor | mat
      · simp [LightPath.next, hev] at ht
      · simp only [LightPath.next, hev] at ht ⊢
        have harm := material_arm_step S scene mat idata ray _ _ ht
          (by simp [next_lds_samp]; exact hc)
        refine ⟨harm.1, ?_⟩
        have hm : p.measure = 2 * (2 - p.bounce_count) + 1 := by
          simp [LightPath.measure, hev]
        rw [hm]
        have := harm.2
        simpa [next_lds_samp] using this)

end Psychopath

namespace Psychopath

theorem run_path_bound (S : Samplers) (scene : SceneModel) :
    ∀ (ins : List SurfaceIntersection) (p : LightPath) (ray : Ray),
      p.bounce_count ≤ 2 →
      (run_path S scene p ray ins).isSome →
      ins.length ≤ p.measure ∧
      ∀ p', run_path S scene p ray ins = some p' → p'.bounce_count ≤ 2 := by
  intro ins
  induction ins with
  | nil =>
    intro p ray hc _
    refine ⟨by simp, fun p' h => ?_⟩
    simp only [run_path] at h
    cases h
    exact hc
  | cons isect rest ih =>
    intro p ray hc hs
    unfold run_path at hs ⊢
    rcases hnx : LightPath.next S scene isect ray p with ⟨p', r', b⟩
    rw [hnx] at hs
    cases b
    · simp at hs
    · have hd := next_true_decreases S scene isect ray p hc (by rw [hnx])
      rw [hnx] at hd
      dsimp only at hd hs ⊢
      obtain ⟨hc', hlt⟩ := hd
      have hr := ih p' r' hc' hs
      refine ⟨?_, fun q hq => hr.2 q hq⟩
      have := hr.1
      simp only [List.length_cons]
      omega

end Psychopath

namespace Psychopath

/-- Claim C10: every LightPath terminates.  bounce_count never exceeds 2
(it is only incremented under the guard bounce_count < 2), and starting
from a fresh path (whose termination measure is 5) any run of consecutive
LightPath::next calls that all return true has length at most 5, so next
returns false by its 6th invocation and the per-bucket tracing loop of
render_job performs at most 6 trace/partition iterations per path before
the live-path count reaches zero.  The per-step intersections and scene
responses are universally quantified, so the bound holds for every
possible render. -/
theorem c10_path_terminates (S : Samplers) (scene : SceneModel)
    (pixel_co : Nat × Nat) (ipc luv : ℚ × ℚ) (time wl : ℚ) (lds : Nat)
    (ins : List SurfaceIntersection)
    (hs : (run_path S scene (LightPath.new scene pixel_co ipc luv time wl lds).1
        (LightPath.new scene pixel_co ipc luv time wl lds).2 ins).isSome) :
    ins.length ≤ 5 ∧
    (∀ p', run_path S scene (LightPath.new scene pixel_co ipc luv time wl lds).1
        (LightPath.new scene pixel_co ipc luv time wl lds).2 ins = some p' →
      p'.bounce_count ≤ 2) := by
  have h := run_path_bound S scene ins (LightPath.new scene pixel_co ipc luv time wl lds).1
    (LightPath.new scene pixel_co ipc luv time wl lds).2 (by simp [LightPath.new]) hs
  have hm : (LightPath.new scene pixel_co ipc luv time wl lds).1.measure = 5 := by
    simp [LightPath.new, LightPath.measure]
  exact ⟨by rw [hm] at h; exact h.1, h.2⟩

/-- Witness for C10: with the demo scene one path actually runs 5
consecutive true steps (camera, shadow, bounce, shadow, bounce/shadow)
before terminating. -/
theorem c10_path_terminates_witness :
    ([demoHitM, SurfaceIntersection.Miss, demoHitM, SurfaceIntersection.Miss,
      demoHitM] : List SurfaceIntersection).length ≤ 5 :=
  (c10_path_terminates demoSamplers demoScene (0, 0) (0, 0) (0, 0) 0 500 0
    [demoHitM, SurfaceIntersection.Miss, demoHitM, SurfaceIntersection.Miss, demoHitM]
    (by with_unfolding_all decide)).1

end Psychopath

namespace Psychopath

/-- Witness for C4 at a concrete shadow-state path and Miss intersection. -/
theorem c4_shadow_ray_step_witness :
    ((LightPath.next demoSamplers demoScene SurfaceIntersection.Miss demoRay
        demoShadowPath).1.color =
      demoShadowPath.color.add demoShadowPath.pending_color_addition) ∧
    ((LightPath.next demoSamplers demoScene SurfaceIntersection.Miss demoRay
        demoShadowPath).2.1 = demoRay) ∧
    ((LightPath.next demoSamplers demoScene SurfaceIntersection.Miss demoRay
        demoShadowPath).2.2 = true) := by
  have h := c4_shadow_ray_step demoSamplers demoScene SurfaceIntersection.Miss demoRay
    demoShadowPath rfl
  have h3 := h.2.2.1 demoRay rfl
  exact ⟨h.1 rfl, h3.1, h3.2.2.2⟩

theorem draw_n_spec (S : Samplers) :
    ∀ (k : Nat) (p : LightPath),
      draw_n S p k = get_sample S (p.dim_offset + k) p.lds_offset := by
  intro k
  induction k with
  | zero => intro p; simp [draw_n, next_lds_samp]
  | succ n ih =>
    intro p
    show draw_n S (next_lds_samp S p).2 n = _
    rw [ih]
    simp [next_lds_samp]
    congr 1
    omega

/-- Claim C7: get_sample(d, i) is a pure function of (d, i) — below the
maximum dimension it is the Halton sample, at or above it the hashed
pseudo-random value — and for a fixed seed each pixel's sample stream is
fully determined by lds_offset = hash((x<<16) xor y, seed) + sample_index:
the path built by render_job for (x, y, si) carries exactly that offset,
and its k-th low-discrepancy draw is get_sample(6 + k, lds_offset),
independently per pixel.  (In this purely functional model two calls with
equal arguments are definitionally equal, which is the determinism
hyperproperty.) -/
theorem c7_sample_determinism (S : Samplers) (scene : SceneModel)
    (res_w res_h seed x y si : Nat) :
    (∀ d i, get_sample S d i =
      if d < S.max_dimension then S.halton_sample d i else S.hash_u32_to_f32 d i) ∧
    (make_pixel_path S scene res_w res_h seed x y si).1.lds_offset =
      S.hash_u32 (((x <<< 16) ^^^ y) % 2 ^ 32) seed + si ∧
    (∀ k, draw_n S (make_pixel_path S scene res_w res_h seed x y si).1 k =
      get_sample S (6 + k) (S.hash_u32 (((x <<< 16) ^^^ y) % 2 ^ 32) seed + si)) := by
  refine ⟨fun d i => rfl, ?_, ?_⟩
  · simp [make_pixel_path, LightPath.new, pixel_offset]
  · intro k
    rw [draw_n_spec]
    simp [make_pixel_path, LightPath.new, pixel_offset]

end Psychopath

namespace Psychopath

theorem pow4_eq (k : Nat) : 4 ^ (k + 1) = 4 * 4 ^ k := by ring

theorem pow2_succ (k : Nat) : 2 ^ (k + 1) = 2 * 2 ^ k := by ring

theorem hd2xy_lt : ∀ (k d : Nat), (hd2xy k d).1 < 2 ^ k ∧ (hd2xy k d).2 < 2 ^ k := by
  intro k
  induction k with
  | zero => intro d; simp [hd2xy]
  | succ k ih =>
    intro d
    have hr := ih (d % 4 ^ k)
    have hp2 : (0:Nat) < 2 ^ k := Nat.pos_pow_of_pos _ (by omega)
    have he2 : 2 ^ (k + 1) = 2 * 2 ^ k := pow2_succ k
    unfold hd2xy
    rcases hqv : d / 4 ^ k with _ | _ | _ | _ | n <;>
      simp only [hqv] <;> omega

end Psychopath

namespace Psychopath

theorem hxy2d_hd2xy : ∀ (k d : Nat), d < 4 ^ k → hxy2d k (hd2xy k d) = d := by
  intro k
  induction k with
  | zero =>
    intro d hd
    interval_cases d
    rfl
  | succ k ih =>
    intro d hd
    have hrlt : d % 4 ^ k < 4 ^ k := Nat.mod_lt _ (Nat.pos_pow_of_pos _ (by omega))
    have hdm := Nat.div_add_mod d (4 ^ k)
    have hqlt : d / 4 ^ k < 4 := by
      have h4 : 4 ^ (k + 1) = 4 ^ k * 4 := by ring
      exact Nat.div_lt_of_lt_mul (by omega)
    obtain ⟨h1, h2⟩ := hd2xy_lt k (d % 4 ^ k)
    have hp2 : (0:Nat) < 2 ^ k := Nat.pos_pow_of_pos _ (by omega)
    have he2 : 2 ^ (k + 1) = 2 * 2 ^ k := pow2_succ k
    have hihr := ih (d % 4 ^ k) hrlt
    rcases hqv : d / 4 ^ k with _ | _ | _ | _ | n
    · -- quadrant 0: (p2, p1)
      simp only [hd2xy, hqv]
      unfold hxy2d
      rw [if_pos h2, if_pos h1]
      have he : hxy2d k ((hd2xy k (d % 4 ^ k)).1, (hd2xy k (d % 4 ^ k)).2) = d % 4 ^ k := hihr
      rw [hqv] at hdm
      rw [he]
      omega
    · -- quadrant 1: (p1, p2 + 2^k)
      simp only [hd2xy, hqv]
      unfold hxy2d
      rw [if_pos h1, if_neg (by omega)]
      have hsub : (hd2xy k (d % 4 ^ k)).2 + 2 ^ k - 2 ^ k = (hd2xy k (d % 4 ^ k)).2 := by omega
      rw [hsub]
      have he : hxy2d k ((hd2xy k (d % 4 ^ k)).1, (hd2xy k (d % 4 ^ k)).2) = d % 4 ^ k := hihr
      rw [hqv] at hdm
      rw [he]
      omega
    · -- quadrant 2: (p1 + 2^k, p2 + 2^k)
      simp only [hd2xy, hqv]
      unfold hxy2d
      rw [if_neg (by omega), if_neg (by omega)]
      have hsa : (hd2xy k (d % 4 ^ k)).1 + 2 ^ k - 2 ^ k = (hd2xy k (d % 4 ^ k)).1 := by omega
      have hsb : (hd2xy k (d % 4 ^ k)).2 + 2 ^ k - 2 ^ k = (hd2xy k (d % 4 ^ k)).2 := by omega
      rw [hsa, hsb]
      have he : hxy2d k ((hd2xy k (d % 4 ^ k)).1, (hd2xy k (d % 4 ^ k)).2) = d % 4 ^ k := hihr
      rw [hqv] at hdm
      rw [he]
      omega
    · -- quadrant 3 (the catch-all; q = 3 since q < 4)
      simp only [hd2xy, hqv]
      unfold hxy2d
      rw [if_neg (by omega), if_pos (by omega)]
      have hsa : 2 ^ k - 1 - (2 ^ k - 1 - (hd2xy k (d % 4 ^ k)).1) = (hd2xy k (d % 4 ^ k)).1 := by
        omega
      have hsb : 2 ^ (k + 1) - 1 - (2 ^ k - 1 - (hd2xy k (d % 4 ^ k)).2 + 2 ^ k) =
          (hd2xy k (d % 4 ^ k)).2 := by omega
      rw [hsa, hsb]
      have he : hxy2d k ((hd2xy k (d % 4 ^ k)).1, (hd2xy k (d % 4 ^ k)).2) = d % 4 ^ k := hihr
      rw [hqv] at hdm
      rw [he]
      omega
    · -- q ≥ 4 is impossible
      omega

end Psychopath

namespace Psychopath

theorem block_div (c e B : Nat) (hB : 0 < B) (he : e < B) :
    (c * B + e) / B = c ∧ (c * B + e) % B = e := by
  constructor
  · rw [Nat.add_comm, Nat.add_mul_div_right _ _ hB, Nat.div_eq_of_lt he, Nat.zero_add]
  · rw [Nat.add_comm, Nat.add_mul_mod_self_right, Nat.mod_eq_of_lt he]

theorem hxy2d_lt : ∀ (k x y : Nat), x < 2 ^ k → y < 2 ^ k → hxy2d k (x, y) < 4 ^ k := by
  intro k
  induction k with
  | zero => intro x y _ _; simp [hxy2d]
  | succ k ih =>
    intro x y hx hy
    have hp2 : (0:Nat) < 2 ^ k := Nat.pos_pow_of_pos _ (by omega)
    have he2 : 2 ^ (k + 1) = 2 * 2 ^ k := pow2_succ k
    have he4 : 4 ^ (k + 1) = 4 * 4 ^ k := pow4_eq k
    unfold hxy2d
    by_cases hx' : x < 2 ^ k
    · rw [if_pos hx']
      by_cases hy' : y < 2 ^ k
      · rw [if_pos hy']
        have := ih y x hy' hx'
        omega
      · rw [if_neg hy']
        have := ih x (y - 2 ^ k) hx' (by omega)
        omega
    · rw [if_neg hx']
      by_cases hy' : y < 2 ^ k
      · rw [if_pos hy']
        have := ih (2 ^ k - 1 - y) (2 ^ (k + 1) - 1 - x) (by omega) (by omega)
        omega
      · rw [if_neg hy']
        have := ih (x - 2 ^ k) (y - 2 ^ k) (by omega) (by omega)
        omega

theorem hd2xy_hxy2d : ∀ (k x y : Nat), x < 2 ^ k → y < 2 ^ k →
    hd2xy k (hxy2d k (x, y)) = (x, y) := by
  intro k
  induction k with
  | zero =>
    intro x y hx hy
    have : x = 0 := by omega
    have : y = 0 := by omega
    subst_vars
    rfl
  | succ k ih =>
    intro x y hx hy
    have hp2 : (0:Nat) < 2 ^ k := Nat.pos_pow_of_pos _ (by omega)
    have hp4 : (0:Nat) < 4 ^ k := Nat.pos_pow_of_pos _ (by omega)
    have he2 : 2 ^ (k + 1) = 2 * 2 ^ k := pow2_succ k
    have he4 : 4 ^ (k + 1) = 4 * 4 ^ k := pow4_eq k
    unfold hxy2d
    by_cases hx' : x < 2 ^ k
    · rw [if_pos hx']
      by_cases hy' : y < 2 ^ k
      · rw [if_pos hy']
        have hlt := hxy2d_lt k y x hy' hx'
        have hq : hxy2d k (y, x) / 4 ^ k = 0 := Nat.div_eq_of_lt hlt
        have hm : hxy2d k (y, x) % 4 ^ k = hxy2d k (y, x) := Nat.mod_eq_of_lt hlt
        show hd2xy (k + 1) (hxy2d k (y, x)) = (x, y)
        unfold hd2xy
        rw [hq, hm]
        simp only [ih y x hy' hx']
      · rw [if_neg hy']
        have hy2 : y - 2 ^ k < 2 ^ k := by omega
        have hlt := hxy2d_lt k x (y - 2 ^ k) hx' hy2
        obtain ⟨hq, hm⟩ := block_div 1 (hxy2d k (x, y - 2 ^ k)) (4 ^ k) hp4 hlt
        rw [Nat.one_mul] at hq hm
        show hd2xy (k + 1) (4 ^ k + hxy2d k (x, y - 2 ^ k)) = (x, y)
        simp only [hd2xy, hq, hm, ih x (y - 2 ^ k) hx' hy2, Prod.mk.injEq, true_and, and_true]
        omega
    · rw [if_neg hx']
      by_cases hy' : y < 2 ^ k
      · rw [if_pos hy']
        have ha : 2 ^ k - 1 - y < 2 ^ k := by omega
        have hb : 2 ^ (k + 1) - 1 - x < 2 ^ k := by omega
        have hlt := hxy2d_lt k (2 ^ k - 1 - y) (2 ^ (k + 1) - 1 - x) ha hb
        obtain ⟨hq, hm⟩ := block_div 3 (hxy2d k (2 ^ k - 1 - y, 2 ^ (k + 1) - 1 - x))
          (4 ^ k) hp4 hlt
        show hd2xy (k + 1) (3 * 4 ^ k + hxy2d k (2 ^ k - 1 - y, 2 ^ (k + 1) - 1 - x)) = (x, y)
        simp only [hd2xy, hq, hm, ih (2 ^ k - 1 - y) (2 ^ (k + 1) - 1 - x) ha hb,
          Prod.mk.injEq, true_and, and_true]
        omega
      · rw [if_neg hy']
        have ha : x - 2 ^ k < 2 ^ k := by omega
        have hb : y - 2 ^ k < 2 ^ k := by omega
        have hlt := hxy2d_lt k (x - 2 ^ k) (y - 2 ^ k) ha hb
        obtain ⟨hq, hm⟩ := block_div 2 (hxy2d k (x - 2 ^ k, y - 2 ^ k)) (4 ^ k) hp4 hlt
        show hd2xy (k + 1) (2 * 4 ^ k + hxy2d k (x - 2 ^ k, y - 2 ^ k)) = (x, y)
        simp only [hd2xy, hq, hm, ih (x - 2 ^ k) (y - 2 ^ k) ha hb, Prod.mk.injEq, true_and, and_true]
        omega

end Psychopath

namespace Psychopath

theorem swapN_swap (n : Nat) (p : Nat × Nat) :
    ((swapN n p).2, (swapN n p).1) = swapN (n + 1) p := by
  unfold swapN
  rcases Nat.mod_two_eq_zero_or_one n with h | h
  · rw [if_pos h, if_neg (by omega)]
  · rw [if_neg (by omega), if_pos (by omega)]

theorem swapN_swapN (n : Nat) (p : Nat × Nat) : swapN n (swapN n p) = p := by
  unfold swapN
  rcases Nat.mod_two_eq_zero_or_one n with h | h
  · rw [if_pos h, if_pos h]
  · rw [if_neg (by omega), if_neg (by omega)]

theorem swapN_lt (n B : Nat) (p : Nat × Nat) (h1 : p.1 < B) (h2 : p.2 < B) :
    (swapN n p).1 < B ∧ (swapN n p).2 < B := by
  unfold swapN
  split
  · exact ⟨h1, h2⟩
  · exact ⟨h2, h1⟩

theorem hd2xy_first_block : ∀ (k j d : Nat), j ≤ k → d < 4 ^ j →
    hd2xy k d = swapN (k - j) (hd2xy j d) := by
  intro k
  induction k with
  | zero =>
    intro j d hj _
    have hj0 : j = 0 := by omega
    subst hj0
    rfl
  | succ k ih =>
    intro j d hj hd
    rcases Nat.eq_or_lt_of_le hj with hje | hjl
    · rw [hje] at hd ⊢
      have : k + 1 - (k + 1) = 0 := by omega
      rw [this]
      rfl
    · have hjk : j ≤ k := by omega
      have hd4 : d < 4 ^ k := lt_of_lt_of_le hd (Nat.pow_le_pow_right (by omega) hjk)
      have hq : d / 4 ^ k = 0 := Nat.div_eq_of_lt hd4
      have hm : d % 4 ^ k = d := Nat.mod_eq_of_lt hd4
      have hsub : k + 1 - j = (k - j) + 1 := by omega
      calc hd2xy (k + 1) d = ((hd2xy k d).2, (hd2xy k d).1) := by
            simp only [hd2xy, hq, hm]
        _ = swapN (k + 1 - j) (hd2xy j d) := by
            rw [ih j d hjk hd, swapN_swap, hsub]

theorem countP_filterMap_list (f : α → Option β) (p : β → Bool) :
    ∀ l : List α, (l.filterMap f).countP p
      = l.countP (fun a => ((f a).map p).getD false) := by
  intro l
  induction l with
  | nil => rfl
  | cons a l ihl =>
    rw [List.filterMap_cons]
    rcases hfa : f a with _ | b
    · rw [List.countP_cons]
      simp [hfa, ihl]
    · rw [List.countP_cons, List.countP_cons]
      simp [hfa, ihl]

theorem countP_range_single (d0 N : Nat) :
    (List.range N).countP (fun d => decide (d = d0)) = if d0 < N then 1 else 0 := by
  induction N with
  | zero => rfl
  | succ N ihN =>
    rw [List.range_succ, List.countP_append, ihN]
    have hsing : (List.countP (fun d => decide (d = d0)) [N])
        = if N = d0 then 1 else 0 := by
      rw [List.countP_cons]
      simp [List.countP_nil]
    rw [hsing]
    by_cases h1 : d0 < N
    · rw [if_pos h1, if_neg (by omega), if_pos (by omega)]
    · by_cases h2 : N = d0
      · rw [if_neg h1, if_pos h2, if_pos (by omega)]
      · rw [if_neg h1, if_neg h2, if_neg (by omega)]

theorem div_block_iff (bw px c : Nat) (hbw : 0 < bw) :
    px / bw = c ↔ (c * bw ≤ px ∧ px < c * bw + bw) := by
  constructor
  · rintro rfl
    refine ⟨Nat.div_mul_le_self px bw, ?_⟩
    have h := (Nat.div_lt_iff_lt_mul hbw).mp (Nat.lt_succ_self (px / bw))
    calc px < (px / bw + 1) * bw := h
      _ = px / bw * bw + bw := by ring
  · rintro ⟨h1, h2⟩
    exact Nat.div_eq_of_lt_le h1 (by rw [Nat.add_mul, Nat.one_mul]; exact h2)

end Psychopath

namespace Psychopath

theorem bucket_dims_pos (msb spp : Nat) :
    1 ≤ (bucket_dims msb spp).1 ∧ 1 ≤ (bucket_dims msb spp).2 := by
  have h : 1 ≤ (bucket_dims msb spp).1 := by
    unfold bucket_dims
    dsimp only
    split
    · omega
    · rename_i hnot
      have hge : (1 : ℚ) ≤ (msb : ℚ) / (spp : ℚ) := not_lt.mp hnot
      have hfl : (1 : ℤ) ≤ ((msb : ℚ) / (spp : ℚ)).floor := by
        rw [Rat.le_floor]
        exact_mod_cast hge
      rw [Nat.le_sqrt]
      omega
  exact ⟨h, h⟩

theorem countP_range_unique (N d0 : Nat) (g : Nat → Bool) (hd0 : d0 < N)
    (h : ∀ d, d < N → (g d = true ↔ d = d0)) :
    (List.range N).countP g = 1 := by
  have h1 : (List.range N).countP g
      = (List.range N).countP (fun d => decide (d = d0)) := by
    apply List.countP_congr
    intro d hdm
    rw [List.mem_range] at hdm
    simp only [decide_eq_true_eq]
    exact h d hdm
  rw [h1, countP_range_single, if_pos hd0]

end Psychopath

namespace Psychopath

theorem populate_jobs_spec (width height sx sy bw bh : Nat)
    (hbw : 1 ≤ bw) (hbh : 1 ≤ bh)
    (hwc : width / bw + 1 ≤ 2 ^ 15) (hhc : height / bh + 1 ≤ 2 ^ 15) :
    (∀ px py, px < width → py < height →
        (populate_jobs width height sx sy bw bh).countP
          (fun jb => job_contains jb (sx + px) (sy + py)) = 1)
    ∧ ∀ jb ∈ populate_jobs width height sx sy bw bh,
        sx ≤ jb.x ∧ jb.x + jb.w ≤ sx + width ∧
        sy ≤ jb.y ∧ jb.y + jb.h ≤ sy + height := by
  set L := max (width / bw + 1) (height / bh + 1) with hL
  set j := Nat.clog 2 L with hj
  have hj15 : j ≤ 15 := by
    rw [hj]
    exact (Nat.le_pow_iff_clog_le (by omega)).mp (by omega)
  have hLle : L ≤ 2 ^ j := by
    rw [hj]
    exact Nat.le_pow_clog (by omega) L
  have hj16 : j ≤ 16 := by omega
  have h4j : 2 ^ j * 2 ^ j = 4 ^ j := by
    rw [show (4 : Nat) = 2 * 2 from rfl, Nat.mul_pow]
  have h4j32 : 4 ^ j < 2 ^ 32 := by
    calc 4 ^ j ≤ 4 ^ 15 := Nat.pow_le_pow_right (by omega) hj15
      _ < 2 ^ 32 := by norm_num
  have hup : upper_power_of_two L = 2 ^ j := by rw [hj]; rfl
  have hpj : populate_jobs width height sx sy bw bh
      = (List.range (4 ^ j)).filterMap (fun d =>
          if (d2xy d).1 * bw < width ∧ (d2xy d).2 * bh < height ∧
              0 < (if (d2xy d).1 * bw ≤ width then
                    min bw (width - (d2xy d).1 * bw) else bw) ∧
              0 < (if (d2xy d).2 * bh ≤ height then
                    min bh (height - (d2xy d).2 * bh) else bh) then
            some ⟨sx + (d2xy d).1 * bw, sy + (d2xy d).2 * bh,
              (if (d2xy d).1 * bw ≤ width then
                min bw (width - (d2xy d).1 * bw) else bw),
              (if (d2xy d).2 * bh ≤ height then
                min bh (height - (d2xy d).2 * bh) else bh)⟩
          else none) := by
    simp only [populate_jobs]
    rw [Nat.mod_eq_of_lt (show width / bw + 1 < 2 ^ 32 by omega),
        Nat.mod_eq_of_lt (show height / bh + 1 < 2 ^ 32 by omega)]
    rw [← hL, hup, h4j, Nat.mod_eq_of_lt h4j32]
  constructor
  · intro px py hpx hpy
    have hbx : px / bw < 2 ^ j := by
      have h1 : px / bw ≤ width / bw := Nat.div_le_div_right (le_of_lt hpx)
      omega
    have hby : py / bh < 2 ^ j := by
      have h1 : py / bh ≤ height / bh := Nat.div_le_div_right (le_of_lt hpy)
      omega
    have htgt := swapN_lt (16 - j) (2 ^ j) (px / bw, py / bh) hbx hby
    set tgt := swapN (16 - j) (px / bw, py / bh) with htgtdef
    set d0 := hxy2d j tgt with hd0def
    have hd0lt : d0 < 4 ^ j := hxy2d_lt j tgt.1 tgt.2 htgt.1 htgt.2
    have hcell0 : hd2xy j d0 = tgt := hd2xy_hxy2d j tgt.1 tgt.2 htgt.1 htgt.2
    have hdxy0 : d2xy d0 = (px / bw, py / bh) := by
      have h1 : d2xy d0 = swapN (16 - j) (hd2xy j d0) := by
        unfold d2xy
        exact hd2xy_first_block 16 j d0 hj16 hd0lt
      rw [h1, hcell0, htgtdef, swapN_swapN]
    have hx1 : px / bw * bw ≤ px := Nat.div_mul_le_self px bw
    have hx2 : px < px / bw * bw + bw :=
      ((div_block_iff bw px (px / bw) (by omega)).mp rfl).2
    have hy1 : py / bh * bh ≤ py := Nat.div_mul_le_self py bh
    have hy2 : py < py / bh * bh + bh :=
      ((div_block_iff bh py (py / bh) (by omega)).mp rfl).2
    have hwpos : 0 < (if px / bw * bw ≤ width then
        min bw (width - px / bw * bw) else bw) := by
      rw [if_pos (by omega : px / bw * bw ≤ width)]
      omega
    have hhpos : 0 < (if py / bh * bh ≤ height then
        min bh (height - py / bh * bh) else bh) := by
      rw [if_pos (by omega : py / bh * bh ≤ height)]
      omega
    rw [hpj, countP_filterMap_list]
    refine countP_range_unique (4 ^ j) d0 _ hd0lt ?_
    intro d hd
    have hfb : d2xy d = swapN (16 - j) (hd2xy j d) := by
      unfold d2xy
      exact hd2xy_first_block 16 j d hj16 hd
    have hcellkey : d2xy d = (px / bw, py / bh) ↔ d = d0 := by
      constructor
      · intro hc
        have h2 : hd2xy j d = tgt := by
          rw [htgtdef, ← hc, hfb, swapN_swapN]
        have h3 := hxy2d_hd2xy j d hd
        rw [h2] at h3
        rw [hd0def]
        exact h3.symm
      · intro hc
        rw [hc]
        exact hdxy0
    rcases hdc : d2xy d with ⟨c1, c2⟩
    rw [hdc] at hcellkey
    rw [← hcellkey, Prod.mk.injEq]
    dsimp only
    by_cases hG : (c1 * bw < width ∧ c2 * bh < height ∧
        0 < (if c1 * bw ≤ width then min bw (width - c1 * bw) else bw) ∧
        0 < (if c2 * bh ≤ height then min bh (height - c2 * bh) else bh))
    · rw [if_pos hG]
      simp only [Option.map_some', Option.getD_some, job_contains,
        decide_eq_true_eq]
      obtain ⟨hgx, hgy, hgw, hgh⟩ := hG
      have hwle : (if c1 * bw ≤ width then
          min bw (width - c1 * bw) else bw) ≤ bw := by
        split
        · exact Nat.min_le_left _ _
        · exact le_refl bw
      have hhle : (if c2 * bh ≤ height then
          min bh (height - c2 * bh) else bh) ≤ bh := by
        split
        · exact Nat.min_le_left _ _
        · exact le_refl bh
      constructor
      · intro hcon
        constructor
        · symm
          rw [div_block_iff bw px c1 (by omega)]
          omega
        · symm
          rw [div_block_iff bh py c2 (by omega)]
          omega
      · rintro ⟨hc1, hc2⟩
        subst hc1
        subst hc2
        refine ⟨by omega, ?_, by omega, ?_⟩
        · rw [if_pos (by omega : px / bw * bw ≤ width)]
          omega
        · rw [if_pos (by omega : py / bh * bh ≤ height)]
          omega
    · rw [if_neg hG]
      simp only [Option.map_none', Option.getD_none]
      constructor
      · intro hcon
        exact absurd hcon (by simp)
      · rintro ⟨hc1, hc2⟩
        exfalso
        apply hG
        subst hc1
        subst hc2
        exact ⟨by omega, by omega, hwpos, hhpos⟩
  · intro jb hjb
    rw [hpj, List.mem_filterMap] at hjb
    obtain ⟨d, hdmem, hfd⟩ := hjb
    by_cases hG : ((d2xy d).1 * bw < width ∧ (d2xy d).2 * bh < height ∧
        0 < (if (d2xy d).1 * bw ≤ width then
              min bw (width - (d2xy d).1 * bw) else bw) ∧
        0 < (if (d2xy d).2 * bh ≤ height then
              min bh (height - (d2xy d).2 * bh) else bh))
    · rw [if_pos hG] at hfd
      obtain ⟨hgx, hgy, hgw, hgh⟩ := hG
      injection hfd with hfd
      subst hfd
      dsimp only
      refine ⟨by omega, ?_, by omega, ?_⟩
      · rw [if_pos (le_of_lt hgx)]
        omega
      · rw [if_pos (le_of_lt hgy)]
        omega
    · rw [if_neg hG] at hfd
      exact absurd hfd (by simp)

end Psychopath

namespace Psychopath

/-- C6 (amended): provided the covering power-of-two grid side stays within
16 bits (so pow2 * pow2 does not wrap in u32), the bucket jobs enqueued by
Renderer::render tile the rendered (possibly cropped) region exactly: every
region pixel lies in exactly one bucket rectangle and every bucket lies
inside the region. -/
theorem c6_bucket_cover (img_w img_h msb spp width height sx sy bw bh : Nat)
    (crop : Option (Nat × Nat × Nat × Nat))
    (hr : render_region img_w img_h crop = (width, height, sx, sy))
    (hb : bucket_dims msb spp = (bw, bh))
    (hwc : width / bw + 1 ≤ 2 ^ 15) (hhc : height / bh + 1 ≤ 2 ^ 15) :
    (∀ px py, px < width → py < height →
        (render_jobs img_w img_h crop msb spp).countP
          (fun jb => job_contains jb (sx + px) (sy + py)) = 1)
    ∧ ∀ jb ∈ render_jobs img_w img_h crop msb spp,
        sx ≤ jb.x ∧ jb.x + jb.w ≤ sx + width ∧
        sy ≤ jb.y ∧ jb.y + jb.h ≤ sy + height := by
  have hb1 := bucket_dims_pos msb spp
  rw [hb] at hb1
  dsimp only at hb1
  have hjobs : render_jobs img_w img_h crop msb spp
      = populate_jobs width height sx sy bw bh := by
    simp only [render_jobs]
    rw [hr, hb]
  rw [hjobs]
  exact populate_jobs_spec width height sx sy bw bh hb1.1 hb1.2 hwc hhc

/-- C6 witness: a 3-by-2 uncropped render with unit buckets; the region
pixel (2, 1) is covered by exactly one enqueued bucket. -/
theorem c6_bucket_cover_witness :
    (render_jobs 3 2 none 1 0).countP
      (fun jb => job_contains jb (0 + 2) (0 + 1)) = 1 :=
  (c6_bucket_cover 3 2 1 0 3 2 0 0 1 1 none (by with_unfolding_all decide)
    (by with_unfolding_all decide) (by decide) (by decide)).1 2 1
    (by decide) (by decide)

/-- C6 counterexample to the unamended claim: a 32768-pixel-wide one-row
render with unit buckets needs a 65536-wide power-of-two grid, so the u32
product pow2 * pow2 wraps to 0 and Renderer::render enqueues no job at
all - every pixel of the (uncropped) region is missed. -/
theorem c6_overflow_counterexample :
    render_region 32768 1 none = (32768, 1, 0, 0)
    ∧ bucket_dims 1 1 = (1, 1)
    ∧ render_jobs 32768 1 none 1 1 = [] := by
  have hr : render_region 32768 1 none = (32768, 1, 0, 0) := rfl
  have hb : bucket_dims 1 1 = (1, 1) := by with_unfolding_all decide
  refine ⟨hr, hb, ?_⟩
  have hupeq : ∀ n : Nat, upper_power_of_two n = 2 ^ Nat.clog 2 n := fun _ => rfl
  have hclog : Nat.clog 2 32769 = 16 := by
    have h1 : Nat.clog 2 32769 ≤ 16 :=
      (Nat.le_pow_iff_clog_le (by omega)).mp (by norm_num)
    have h2 : 15 < Nat.clog 2 32769 :=
      (Nat.pow_lt_iff_lt_clog (by omega)).mp (by norm_num)
    omega
  have hjobs : render_jobs 32768 1 none 1 1 = populate_jobs 32768 1 0 0 1 1 := by
    simp only [render_jobs]
    rw [hr, hb]
  rw [hjobs]
  simp only [populate_jobs]
  rw [show (32768 / 1 + 1) % 2 ^ 32 = 32769 by norm_num,
      show (1 / 1 + 1) % 2 ^ 32 = 2 by norm_num,
      show max 32769 2 = 32769 by norm_num,
      show upper_power_of_two 32769 = 65536 by
        rw [hupeq, hclog]
        norm_num]
  simp only [show (65536 * 65536) % 2 ^ 32 = 0 by norm_num, List.range_zero,
    List.filterMap_nil]

end Psychopath

namespace Psychopath

theorem spartition_two_subset {p : α → Bool} {xs : List α} {x : α}
    (h : x ∈ (spartition p xs).2) : x ∈ xs := by
  unfold spartition at h
  rcases List.mem_append.mp h with h1 | h1
  · exact (List.mem_filter.mp h1).1
  · exact (List.mem_filter.mp h1).1

theorem spartition_take_subset {p : α → Bool} {xs : List α} {n : Nat} {x : α}
    (h : x ∈ (spartition p xs).2.take n) : x ∈ xs :=
  spartition_two_subset (List.take_subset _ _ h)

theorem spartition_drop_subset {p : α → Bool} {xs : List α} {n : Nat} {x : α}
    (h : x ∈ (spartition p xs).2.drop n) : x ∈ xs :=
  spartition_two_subset (List.drop_subset _ _ h)

theorem mem_split_rays {rays b : List AccelRay}
    (hb : b ∈ split_rays_by_direction rays) {r : AccelRay} (hr : r ∈ b) :
    r ∈ rays := by
  simp only [split_rays_by_direction, List.mem_cons, List.not_mem_nil, or_false] at hb
  rcases hb with h | h | h | h | h | h | h | h <;> subst h
  · exact spartition_take_subset (spartition_take_subset (spartition_take_subset hr))
  · exact spartition_take_subset (spartition_take_subset (spartition_drop_subset hr))
  · exact spartition_take_subset (spartition_drop_subset (spartition_take_subset hr))
  · exact spartition_take_subset (spartition_drop_subset (spartition_drop_subset hr))
  · exact spartition_drop_subset (spartition_take_subset (spartition_take_subset hr))
  · exact spartition_drop_subset (spartition_take_subset (spartition_drop_subset hr))
  · exact spartition_drop_subset (spartition_drop_subset (spartition_take_subset hr))
  · exact spartition_drop_subset (spartition_drop_subset (spartition_drop_subset hr))

end Psychopath

namespace Psychopath

theorem foldl_test_inv {T σ : Type} (test : T → List AccelRay → σ → List AccelRay × σ)
    (Q : AccelRay → Prop) (SP : σ → Prop) (part : Nat)
    (htest : ∀ ob rs s, (∀ r ∈ rs, Q r) → SP s →
      (∀ r ∈ (test ob rs s).1, Q r) ∧ SP (test ob rs s).2) :
    ∀ (l : List T) (acc : List AccelRay × σ),
      (∀ r ∈ acc.1, Q r) → SP acc.2 →
      (∀ r ∈ (l.foldl (fun (acc : List AccelRay × σ) ob =>
          let r := test ob (acc.1.take part) acc.2
          (r.1 ++ acc.1.drop part, r.2)) acc).1, Q r) ∧
      SP (l.foldl (fun (acc : List AccelRay × σ) ob =>
          let r := test ob (acc.1.take part) acc.2
          (r.1 ++ acc.1.drop part, r.2)) acc).2 := by
  intro l
  induction l with
  | nil => intro acc h1 h2; exact ⟨h1, h2⟩
  | cons ob l ihl =>
    intro acc h1 h2
    rw [List.foldl_cons]
    have hpre : ∀ r ∈ acc.1.take part, Q r := fun r hr => h1 r (List.take_subset _ _ hr)
    have hres := htest ob (acc.1.take part) acc.2 hpre h2
    apply ihl
    · intro r hr
      dsimp only at hr
      rcases List.mem_append.mp hr with h | h
      · exact hres.1 r h
      · exact h1 r (List.drop_subset _ _ h)
    · exact hres.2

theorem traverse_loop_inv {T σ : Type} (nodes : List BVHNode) (bnds : List BBox)
    (objects : List T) (test : T → List AccelRay → σ → List AccelRay × σ)
    (Q : AccelRay → Prop) (SP : σ → Prop)
    (htest : ∀ ob rs s, (∀ r ∈ rs, Q r) → SP s →
      (∀ r ∈ (test ob rs s).1, Q r) ∧ SP (test ob rs s).2) :
    ∀ (fuel : Nat) (rays : List AccelRay) (stack : List (Nat × Nat)) (s : σ),
      (∀ r ∈ rays, Q r) → SP s →
      (∀ r ∈ (traverse_loop nodes bnds objects test fuel rays stack s).1, Q r) ∧
      SP (traverse_loop nodes bnds objects test fuel rays stack s).2 := by
  intro fuel
  induction fuel with
  | zero => intro rays stack s hQ hS; exact ⟨hQ, hS⟩
  | succ fuel ih =>
    intro rays stack s hQ hS
    match stack with
    | [] => exact ⟨hQ, hS⟩
    | (ni, cnt) :: rest =>
      rw [traverse_loop]
      have hrays1 : ∀ (pred : AccelRay → Bool),
          ∀ r ∈ (spartition pred (rays.take cnt)).2 ++ rays.drop cnt, Q r := by
        intro pred r hr
        rcases List.mem_append.mp hr with h | h
        · exact hQ r (List.take_subset _ _ (spartition_two_subset h))
        · exact hQ r (List.drop_subset _ _ h)
      rcases hnode : nodes.get? ni with _ | nd
      · exact ⟨hQ, hS⟩
      · rcases nd with ⟨br, sci, ax⟩ | ⟨br, orange⟩
        · dsimp only
          split
          · exact ih _ _ _ (hrays1 _) hS
          · exact ih _ _ _ (hrays1 _) hS
        · dsimp only
          split
          · have hfold := foldl_test_inv test Q SP
              (spartition (traverse_pred bnds br) (rays.take cnt)).1 htest
              ((objects.drop orange.1).take (orange.2 - orange.1))
              ((spartition (traverse_pred bnds br) (rays.take cnt)).2 ++ rays.drop cnt, s)
              (hrays1 _) hS
            exact ih _ _ _ hfold.1 hfold.2
          · exact ih _ _ _ (hrays1 _) hS

end Psychopath

namespace Psychopath

theorem sets_fold_inv (process : List AccelRay → TraceSt → List AccelRay × TraceSt)
    (Q : AccelRay → Prop) (SP : TraceSt → Prop)
    (hproc : ∀ rset σ, (∀ r ∈ rset, Q r) → SP σ →
      (∀ r ∈ (process rset σ).1, Q r) ∧ SP (process rset σ).2) :
    ∀ (sets : List (List AccelRay)) (acc : List (List AccelRay) × TraceSt),
      (∀ b ∈ sets, ∀ r ∈ b, Q r) →
      (∀ r ∈ acc.1.flatten, Q r) → SP acc.2 →
      (∀ r ∈ (sets.foldl (fun (acc : List (List AccelRay) × TraceSt) rset =>
          if rset.isEmpty then (acc.1 ++ [rset], acc.2)
          else
            let r := process rset acc.2
            (acc.1 ++ [r.1], r.2)) acc).1.flatten, Q r) ∧
      SP (sets.foldl (fun (acc : List (List AccelRay) × TraceSt) rset =>
          if rset.isEmpty then (acc.1 ++ [rset], acc.2)
          else
            let r := process rset acc.2
            (acc.1 ++ [r.1], r.2)) acc).2 := by
  intro sets
  induction sets with
  | nil => intro acc hsets h1 h2; exact ⟨h1, h2⟩
  | cons b sets ihs =>
    intro acc hsets h1 h2
    rw [List.foldl_cons]
    have hbQ : ∀ r ∈ b, Q r := hsets b (List.mem_cons_self _ _)
    have hsets' : ∀ b' ∈ sets, ∀ r ∈ b', Q r :=
      fun b' hb' => hsets b' (List.mem_cons_of_mem _ hb')
    by_cases hbe : b.isEmpty
    · rw [if_pos hbe]
      apply ihs _ hsets'
      · intro r hr
        dsimp only at hr
        rw [List.flatten_append] at hr
        rcases List.mem_append.mp hr with h | h
        · exact h1 r h
        · rw [List.isEmpty_iff] at hbe
          subst hbe
          simp at h
      · exact h2
    · rw [if_neg hbe]
      have hres := hproc b acc.2 hbQ h2
      apply ihs _ hsets'
      · intro r hr
        dsimp only at hr
        rw [List.flatten_append] at hr
        rcases List.mem_append.mp hr with h | h
        · exact h1 r h
        · simp only [List.flatten, List.append_nil] at h
          exact hres.1 r (by simpa using h)
      · exact hres.2

end Psychopath

namespace Psychopath

theorem surf_fold_inv (hit : AccelRay → List Matrix → Option (ℚ × SurfaceIntersection))
    (xfs : List Matrix) (i : Nat) (m0 : Option ℚ)
    (hmiss : ∀ r xfs', r.id = i → hit r xfs' = none) :
    ∀ (rays : List AccelRay) (acc : List AccelRay × List SurfaceIntersection),
      (∀ r ∈ acc.1, r.id = i → r.max_t = m0) →
      (∀ r ∈ rays, r.id = i → r.max_t = m0) →
      (∀ r ∈ (rays.foldl
        (fun (acc : List AccelRay × List SurfaceIntersection) r =>
          if r.is_done then (acc.1 ++ [r], acc.2)
          else
            match hit r xfs with
            | none => (acc.1 ++ [r], acc.2)
            | some (t, isect) =>
              let closer := match r.max_t with
                | none => true
                | some m => decide (t < m)
              if closer then
                (acc.1 ++ [{ r with max_t := some t, done := r.is_shadow }],
                 acc.2.set r.id isect)
              else (acc.1 ++ [r], acc.2)) acc).1, r.id = i → r.max_t = m0) ∧
      (rays.foldl
        (fun (acc : List AccelRay × List SurfaceIntersection) r =>
          if r.is_done then (acc.1 ++ [r], acc.2)
          else
            match hit r xfs with
            | none => (acc.1 ++ [r], acc.2)
            | some (t, isect) =>
              let closer := match r.max_t with
                | none => true
                | some m => decide (t < m)
              if closer then
                (acc.1 ++ [{ r with max_t := some t, done := r.is_shadow }],
                 acc.2.set r.id isect)
              else (acc.1 ++ [r], acc.2)) acc).2.length = acc.2.length ∧
      (rays.foldl
        (fun (acc : List AccelRay × List SurfaceIntersection) r =>
          if r.is_done then (acc.1 ++ [r], acc.2)
          else
            match hit r xfs with
            | none => (acc.1 ++ [r], acc.2)
            | some (t, isect) =>
              let closer := match r.max_t with
                | none => true
                | some m => decide (t < m)
              if closer then
                (acc.1 ++ [{ r with max_t := some t, done := r.is_shadow }],
                 acc.2.set r.id isect)
              else (acc.1 ++ [r], acc.2)) acc).2.get? i = acc.2.get? i := by
  intro rays
  induction rays with
  | nil => intro acc h1 h2; exact ⟨h1, rfl, rfl⟩
  | cons r rays ihr =>
    intro acc h1 h2
    rw [List.foldl_cons]
    have hrQ : r.id = i → r.max_t = m0 := h2 r (List.mem_cons_self _ _)
    have h2' : ∀ r' ∈ rays, r'.id = i → r'.max_t = m0 :=
      fun r' hr' => h2 r' (List.mem_cons_of_mem _ hr')
    have happ : ∀ (x : AccelRay), (x.id = i → x.max_t = m0) →
        ∀ r' ∈ acc.1 ++ [x], r'.id = i → r'.max_t = m0 := by
      intro x hx r' hr'
      rcases List.mem_append.mp hr' with h | h
      · exact h1 r' h
      · rw [List.mem_singleton] at h
        subst h
        exact hx
    by_cases hdone : r.is_done = true
    · rw [if_pos hdone]
      have := ihr (acc.1 ++ [r], acc.2) (happ r hrQ) h2'
      exact this
    · rw [if_neg hdone]
      by_cases hid : r.id = i
      · rw [hmiss r xfs hid]
        exact ihr (acc.1 ++ [r], acc.2) (happ r hrQ) h2'
      · rcases hhit : hit r xfs with _ | ⟨t, isect⟩
        · exact ihr (acc.1 ++ [r], acc.2) (happ r hrQ) h2'
        · dsimp only
          split
          · have hres := ihr (acc.1 ++ [{ r with max_t := some t, done := r.is_shadow }],
              acc.2.set r.id isect)
              (happ _ (fun hc => absurd hc hid)) h2'
            refine ⟨hres.1, ?_, ?_⟩
            · rw [hres.2.1]
              exact List.length_set acc.2 ..
            · rw [hres.2.2]
              exact List.get?_set_ne _ _ (fun hc => hid hc) ..
          · exact ihr (acc.1 ++ [r], acc.2) (happ r hrQ) h2'

end Psychopath

namespace Psychopath

theorem update_xf_id (r : AccelRay) (wr : Ray) (m : Matrix) :
    (r.update_from_xformed_world_ray wr m).id = r.id := rfl

theorem update_xf_max_t (r : AccelRay) (wr : Ray) (m : Matrix) :
    (r.update_from_xformed_world_ray wr m).max_t = r.max_t := rfl

theorem update_w_id (r : AccelRay) (wr : Ray) :
    (r.update_from_world_ray wr).id = r.id := rfl

theorem update_w_max_t (r : AccelRay) (wr : Ray) :
    (r.update_from_world_ray wr).max_t = r.max_t := rfl

theorem trace_assembly_inv (i : Nat) (m0 : Option ℚ) (wrays : List Ray)
    (L : Nat) (V : Option SurfaceIntersection) :
    ∀ (fuel : Nat) (asm : Assembly) (rays : List AccelRay) (st : TraceSt),
      AllMiss i asm →
      (∀ r ∈ rays, r.id = i → r.max_t = m0) →
      st.isects.length = L ∧ st.isects.get? i = V →
      (∀ r ∈ (trace_assembly fuel asm wrays rays st).1, r.id = i → r.max_t = m0) ∧
      ((trace_assembly fuel asm wrays rays st).2.isects.length = L ∧
       (trace_assembly fuel asm wrays rays st).2.isects.get? i = V) := by
  intro fuel
  induction fuel with
  | zero => intro asm rays st _ hQ hS; exact ⟨hQ, hS⟩
  | succ fuel ih =>
    intro asm rays st hall hQ hS
    rcases hall with ⟨insts, xfsa, objs, asms, accel, hobj, hasm⟩
    rw [trace_assembly]
    unfold BVH.traverse
    split
    · exact ⟨hQ, hS⟩
    · dsimp only [Assembly.instances, Assembly.xforms, Assembly.objects,
        Assembly.assemblies, Assembly.object_accel]
      refine traverse_loop_inv _ _ _ _
        (fun r => r.id = i → r.max_t = m0)
        (fun σ : TraceSt => σ.isects.length = L ∧ σ.isects.get? i = V) ?_ _ _ _ _ hQ hS
      intro inst rs σ hrs hσ
      have hdisp : ∀ (rset : List AccelRay) (σ' : TraceSt),
          (∀ r ∈ rset, r.id = i → r.max_t = m0) →
          (σ'.isects.length = L ∧ σ'.isects.get? i = V) →
          (∀ r ∈ ((fun (rset : List AccelRay) (σ' : TraceSt) =>
              match inst.instance_type with
              | InstanceType.object =>
                match objs.get? inst.data_index with
                | none => (rset, σ')
                | some ob =>
                  let r := trace_object_m ob (xstack_top σ'.stack) rset σ'.isects
                  (r.1, { σ' with isects := r.2 })
              | InstanceType.assembly =>
                match asms.get? inst.data_index with
                | none => (rset, σ')
                | some child => trace_assembly fuel child wrays rset σ') rset σ').1,
            r.id = i → r.max_t = m0) ∧
          (((fun (rset : List AccelRay) (σ' : TraceSt) =>
              match inst.instance_type with
              | InstanceType.object =>
                match objs.get? inst.data_index with
                | none => (rset, σ')
                | some ob =>
                  let r := trace_object_m ob (xstack_top σ'.stack) rset σ'.isects
                  (r.1, { σ' with isects := r.2 })
              | InstanceType.assembly =>
                match asms.get? inst.data_index with
                | none => (rset, σ')
                | some child => trace_assembly fuel child wrays rset σ') rset σ').2.isects.length = L ∧
           ((fun (rset : List AccelRay) (σ' : TraceSt) =>
              match inst.instance_type with
              | InstanceType.object =>
                match objs.get? inst.data_index with
                | none => (rset, σ')
                | some ob =>
                  let r := trace_object_m ob (xstack_top σ'.stack) rset σ'.isects
                  (r.1, { σ' with isects := r.2 })
              | InstanceType.assembly =>
                match asms.get? inst.data_index with
                | none => (rset, σ')
                | some child => trace_assembly fuel child wrays rset σ') rset σ').2.isects.get? i = V) := by
        intro rset σ' hrs' hσ'
        dsimp only
        rcases hty : inst.instance_type
        · rcases hob : objs.get? inst.data_index with _ | ob
          · exact ⟨hrs', hσ'⟩
          · dsimp only [trace_object_m]
            unfold surf_intersect_rays
            have hmiss : ∀ r xfs', r.id = i → ob.srf.hit r xfs' = none :=
              hobj ob (List.get?_mem hob)
            have hres := surf_fold_inv ob.srf.hit (xstack_top σ'.stack) i m0 hmiss
              rset ([], σ'.isects) (by intro r hr; exact absurd hr (List.not_mem_nil r)) hrs'
            refine ⟨hres.1, ?_, ?_⟩
            · dsimp only
              rw [hres.2.1]
              exact hσ'.1
            · dsimp only
              rw [hres.2.2]
              exact hσ'.2
        · rcases hca : asms.get? inst.data_index with _ | child
          · exact ⟨hrs', hσ'⟩
          · exact ih child rset σ' (hasm child (List.get?_mem hca)) hrs' hσ'
      rcases hti : inst.transform_indices with _ | ⟨xstart, xend⟩
      · -- untransformed instance
        dsimp only [Option.isSome_none]
        simp only [Bool.false_eq_true, if_false]
        have hfold := sets_fold_inv _
          (fun r => r.id = i → r.max_t = m0)
          (fun σ' => σ'.isects.length = L ∧ σ'.isects.get? i = V) hdisp
          [rs] ([], σ)
          (by intro b hb; rw [List.mem_singleton] at hb; subst hb; exact hrs)
          (by intro r hr; simp at hr) hσ
        exact hfold
      · -- transformed instance
        dsimp only [Option.isSome_some]
        simp only [if_true]
        have hrs1 : ∀ r ∈ rs.map (fun r =>
            match wrays.get? r.id with
            | some wr => r.update_from_xformed_world_ray wr
                (lerp_slice_m (xstack_top (xstack_push σ.stack
                  ((xfsa.drop xstart).take (xend - xstart)))) r.time)
            | none => r), r.id = i → r.max_t = m0 := by
          intro r' hr'
          rcases List.mem_map.mp hr' with ⟨r, hrmem, hfr⟩
          subst hfr
          rcases wrays.get? r.id with _ | wr
          · exact hrs r hrmem
          · intro hid
            rw [update_xf_max_t]
            exact hrs r hrmem (by rw [← update_xf_id r wr]; exact hid)
        have hfold := sets_fold_inv _
          (fun r => r.id = i → r.max_t = m0)
          (fun σ' => σ'.isects.length = L ∧ σ'.isects.get? i = V) hdisp
          (split_rays_by_direction (rs.map (fun r =>
            match wrays.get? r.id with
            | some wr => r.update_from_xformed_world_ray wr
                (lerp_slice_m (xstack_top (xstack_push σ.stack
                  ((xfsa.drop xstart).take (xend - xstart)))) r.time)
            | none => r)))
          ([], { σ with stack := xstack_push σ.stack ((xfsa.drop xstart).take (xend - xstart)) })
          (by intro b hb r hr; exact hrs1 r (mem_split_rays hb hr))
          (by intro r hr; simp at hr) hσ
        refine ⟨?_, hfold.2⟩
        intro r' hr'
        split at hr'
        · rcases List.mem_map.mp hr' with ⟨r, hrmem, hfr⟩
          subst hfr
          rcases wrays.get? r.id with _ | wr
          · exact hfold.1 r hrmem
          · intro hid
            rw [update_w_max_t]
            exact hfold.1 r hrmem (by rw [← update_w_id r wr]; exact hid)
        · rcases List.mem_map.mp hr' with ⟨r, hrmem, hfr⟩
          subst hfr
          rcases wrays.get? r.id with _ | wr
          · exact hfold.1 r hrmem
          · intro hid
            rw [update_xf_max_t]
            exact hfold.1 r hrmem (by rw [← update_xf_id r wr]; exact hid)

end Psychopath

namespace Psychopath

/-- C3 (amended): Tracer::trace returns exactly one intersection per input
world ray; a ray (of any id i) that intersects no primitive of the
assembly tree keeps SurfaceIntersection::Miss in its slot, and every accel
ray carrying its id still has the world ray's original max_t on return —
in particular +infinity whenever the world ray started at +infinity. -/
theorem c3_tracer_miss (fuel : Nat) (root : Assembly) (wrays : List Ray)
    (i : Nat) (wr : Ray) (hall : AllMiss i root) (hwr : wrays.get? i = some wr) :
    (Tracer.trace fuel root wrays).1.length = wrays.length ∧
    (Tracer.trace fuel root wrays).1.get? i = some SurfaceIntersection.Miss ∧
    ∀ r ∈ (Tracer.trace fuel root wrays).2, r.id = i → r.max_t = wr.max_t := by
  have hilt : i < wrays.length := by
    rcases List.get?_eq_some.mp hwr with ⟨h, _⟩
    exact h
  have hrays0 : ∀ r ∈ List.zipWith AccelRay.new wrays (List.range wrays.length),
      r.id = i → r.max_t = wr.max_t := by
    intro r hr hid
    rcases List.mem_iff_get?.mp hr with ⟨k, hk⟩
    rw [List.get?_eq_getElem?, List.getElem?_zipWith] at hk
    rcases hk1 : wrays[k]? with _ | wk
    · rw [hk1] at hk
      simp at hk
    · rcases hk2 : (List.range wrays.length)[k]? with _ | k'
      · rw [hk2] at hk
        simp at hk
      · rw [hk1, hk2] at hk
        dsimp only at hk
        injection hk with hk
        have hklt : k < wrays.length := by
          rcases List.getElem?_eq_some.mp hk1 with ⟨h, _⟩
          exact h
        rw [List.getElem?_range hklt] at hk2
        injection hk2 with hk2
        subst hk2
        subst hk
        have hki : k = i := hid
        subst hki
        rw [List.get?_eq_getElem?, hk1] at hwr
        injection hwr with hwr
        subst hwr
        rfl
  have hproc : ∀ (rset : List AccelRay) (σ : TraceSt),
      (∀ r ∈ rset, r.id = i → r.max_t = wr.max_t) →
      (σ.isects.length = wrays.length ∧
       σ.isects.get? i = some SurfaceIntersection.Miss) →
      (∀ r ∈ (trace_assembly fuel root wrays rset σ).1, r.id = i → r.max_t = wr.max_t) ∧
      ((trace_assembly fuel root wrays rset σ).2.isects.length = wrays.length ∧
       (trace_assembly fuel root wrays rset σ).2.isects.get? i =
         some SurfaceIntersection.Miss) :=
    fun rset σ hq hs =>
      trace_assembly_inv i wr.max_t wrays wrays.length (some SurfaceIntersection.Miss)
        fuel root rset σ hall hq hs
  have hfold := sets_fold_inv (trace_assembly fuel root wrays)
    (fun r => r.id = i → r.max_t = wr.max_t)
    (fun σ : TraceSt => σ.isects.length = wrays.length ∧
      σ.isects.get? i = some SurfaceIntersection.Miss) hproc
    (split_rays_by_direction (List.zipWith AccelRay.new wrays (List.range wrays.length)))
    ([], ⟨List.replicate wrays.length SurfaceIntersection.Miss, []⟩)
    (fun b hb r hr => hrays0 r (mem_split_rays hb hr))
    (by intro r hr; simp at hr)
    (by constructor
        · exact List.length_replicate ..
        · rw [List.get?_eq_getElem?, List.getElem?_replicate]
          rw [if_pos hilt])
  exact ⟨hfold.2.1, hfold.2.2, hfold.1⟩

/-- C3 witness: tracing one finite-max_t shadow ray through the empty
assembly returns one Miss intersection. -/
theorem c3_tracer_miss_witness :
    (Tracer.trace 1 emptyAssembly [demoFiniteRay]).1.length = 1 ∧
    (Tracer.trace 1 emptyAssembly [demoFiniteRay]).1.get? 0
      = some SurfaceIntersection.Miss := by
  have h := c3_tracer_miss 1 emptyAssembly [demoFiniteRay] 0 demoFiniteRay
    (AllMiss.mk [] [] [] [] BVH.new_empty
      (fun ob hob => absurd hob (List.not_mem_nil ob))
      (fun a ha => absurd ha (List.not_mem_nil a))) rfl
  exact ⟨h.1, h.2.1⟩

/-- C3 counterexample to the unamended claim: a world ray entering with a
finite max_t (as the integrator's shadow rays towards surface lights do)
that hits nothing comes back with its slot Miss but with max_t still the
finite entry value, not +infinity. -/
theorem c3_maxt_counterexample :
    (Tracer.trace 1 emptyAssembly [demoFiniteRay]).1 = [SurfaceIntersection.Miss]
    ∧ ((Tracer.trace 1 emptyAssembly [demoFiniteRay]).2.map AccelRay.max_t)
        = [some 1] := by
  constructor
  · with_unfolding_all rfl
  · with_unfolding_all rfl

end Psychopath
